import Mathlib

/-!
# Verification of the `local-llm-file-search` backend

A shallow embedding of the Python backend of `yubota-dev/local-llm-file-search`
(`src/backend/chunker.py`, `indexer.py`, `query.py`, `archive_list.py`) together
with proofs of the specification's claims about it.

Conventions of the embedding:
* Python strings are modelled as `String` or, where character slicing matters
  (the chunker), as `List Char`.
* Python dictionaries are modelled as association lists with first-match lookup;
  `dict.update` is modelled by `dictUpdate` below (in-place overwrite of
  existing keys, append of new keys), matching CPython semantics.
* Functions that can raise past their own boundary return `Except`/`Option`;
  functions whose exceptions are all caught internally are total.
* External collaborators (the vector store, the Ollama HTTP endpoint, the
  `zipfile`/`tarfile` modules, subprocesses) are modelled by explicit input
  values describing their observable outcome, per the spec's interface section.
-/

namespace LocalSearch

/-- A Python value as stored in a chunk dictionary or passed as caller
metadata: an integer or a string.  (These are the only value shapes the
embedded chunker code itself creates; caller metadata of other shapes is
opaque to the code and is represented by its string form.) -/
inductive PyVal where
  | int (n : Int)
  | str (s : List Char)
deriving DecidableEq, Repr

/-- First-match lookup in an association list, i.e. `d[k]` / `d.get(k)` for a
dict represented with unique keys. -/
def dictLookup (k : String) : List (String × PyVal) → Option PyVal
  | [] => none
  | (k₁, v) :: rest => if k₁ = k then some v else dictLookup k rest

/-- Assignment `d[k] = v` on a dict: overwrite the existing entry for `k` in place, or
append a new entry. -/
def dictSet (d : List (String × PyVal)) (k : String) (v : PyVal) :
    List (String × PyVal) :=
  if (d.map Prod.fst).contains k then
    d.map (fun kv => if kv.1 = k then (k, v) else kv)
  else d ++ [(k, v)]

/-- Python `d.update(m)`: set every key/value pair of `m` in `d`, in order. -/
def dictUpdate (d m : List (String × PyVal)) : List (String × PyVal) :=
  m.foldl (fun acc kv => dictSet acc kv.1 kv.2) d

/-- String lookup in a flat string-valued metadata map (the vector-store
metadata of `indexer.py`). -/
def lookupS (k : String) : List (String × String) → Option String
  | [] => none
  | (k₁, v) :: rest => if k₁ = k then some v else lookupS k rest

namespace TextChunker

/-- Python `range(0, stop, step)` for `step ≥ 1`: the multiples of `step` below
`stop`. -/
def pyRange (stop step : Nat) : List Nat :=
  (List.range ((stop + step - 1) / step)).map (· * step)

/-- One chunk produced by `TextChunker.chunk` before the caller metadata is
merged in: the computed fields of the chunk dictionary. -/
structure Chunk where
  chunk_id : Nat
  text : List Char
  start_char : Nat
  end_char : Nat
  length : Nat
deriving DecidableEq, Repr

/-- One iteration of the loop of `TextChunker.chunk`: slice
`text[i:i+chunk_size]`, skip it when empty (`continue`), otherwise append the
chunk record, its `chunk_id` being the number of chunks appended so far. -/
def chunkStep (text : List Char) (cs : Nat) (acc : List Chunk) (i : Nat) :
    List Chunk :=
  let ctext := (text.drop i).take cs
  if ctext.length = 0 then acc
  else acc ++ [{ chunk_id := acc.length, text := ctext, start_char := i,
                 end_char := min (i + cs) text.length, length := ctext.length }]

/-- The error message Python's `range` raises for a zero step. -/
def rangeStepError : String := "range() arg 3 must not be zero"

/-- Model of `TextChunker.chunk` (chunker.py:30-66), computed fields only.
The function body has no precondition check: it computes
`step = chunk_size - chunk_overlap` and iterates `range(0, len(text), step)`.
A zero step makes `range` itself raise `ValueError` (the `Except.error` case);
a negative step (`chunk_overlap > chunk_size`) makes the range empty, so the
result is `[]`.  The empty-text early return happens before `range` is
evaluated. -/
def chunkRecords (text : List Char) (chunk_size chunk_overlap : Nat) :
    Except String (List Chunk) :=
  if text.isEmpty then .ok []
  else if chunk_size = chunk_overlap then .error rangeStepError
  else if chunk_size < chunk_overlap then .ok []
  else .ok ((pyRange text.length (chunk_size - chunk_overlap)).foldl
              (chunkStep text chunk_size) [])

/-- The chunk dictionary as built by `TextChunker.chunk` before
`chunk_data.update(metadata)`. -/
def baseDict (c : Chunk) : List (String × PyVal) :=
  [("chunk_id", .int c.chunk_id), ("text", .str c.text),
   ("start_char", .int c.start_char), ("end_char", .int c.end_char),
   ("length", .int c.length)]

/-- The chunk dictionary after the optional metadata merge
(`if metadata: chunk_data.update(metadata)`). -/
def chunkDict (c : Chunk) (metadata : List (String × PyVal)) :
    List (String × PyVal) :=
  if metadata.isEmpty then baseDict c else dictUpdate (baseDict c) metadata

/-- Model of `TextChunker.chunk` including the metadata merge: the list of chunk
dictionaries. -/
def chunk (text : List Char) (chunk_size chunk_overlap : Nat)
    (metadata : List (String × PyVal)) :
    Except String (List (List (String × PyVal))) :=
  (chunkRecords text chunk_size chunk_overlap).map
    (fun l => l.map (fun c => chunkDict c metadata))

/-- The sentence terminators of `TextChunker._split_sentences`
(chunker.py:156). -/
def isSentenceEnd (c : Char) : Bool :=
  ['。', '！', '？', '.', '!', '?'].contains c

/-- ASCII whitespace as stripped by Python's `str.strip()`.  (The Python
method also strips some further Unicode whitespace; the inputs the claims
need involve only these.) -/
def isPySpace (c : Char) : Bool :=
  [' ', '\t', '\n', '\r', Char.ofNat 11, Char.ofNat 12].contains c

/-- Python `bool(''.join(current).strip())`: the accumulated characters contain a
non-whitespace character. -/
def hasNonSpace (l : List Char) : Bool := l.any (fun c => !isPySpace c)

/-- The character loop of `TextChunker._split_sentences` (chunker.py:152-168):
`cur` is the `current` accumulator.  A terminator always flushes; a newline
flushes only when the accumulated text strips to something non-empty (the
additional guard `current[-2:] != ['', '\n']` in the source is always true,
since the elements of `current` are single characters, never `''`); the final
remainder is kept only when it strips to something non-empty. -/
def splitGo : List Char → List Char → List (List Char)
  | [], cur => if !cur.isEmpty && hasNonSpace cur then [cur] else []
  | c :: rest, cur =>
    let cur₁ := cur ++ [c]
    if isSentenceEnd c then cur₁ :: splitGo rest []
    else if c = '\n' then
      (if hasNonSpace cur₁ then [cur₁] else []) ++ splitGo rest []
    else splitGo rest cur₁

/-- Model of `TextChunker._split_sentences` (chunker.py:138-170). -/
def splitSentences (text : List Char) : List (List Char) := splitGo text []

/-- One chunk produced by `TextChunker.chunk_by_sentences`, computed fields
only. -/
structure SChunk where
  chunk_id : Nat
  text : List Char
  start_char : Nat
  end_char : Nat
  length : Nat
  sentence_count : Nat
deriving DecidableEq, Repr

/-- The chunk record flushed by `chunk_by_sentences` when `current_chunk` is
`cur`, `current_length` is `curLen`, `char_offset` is `off` and `len(chunks)`
is `n` (chunker.py:98-106 and 120-129). -/
def mkSChunk (n : Nat) (cur : List (List Char)) (curLen off : Nat) : SChunk :=
  { chunk_id := n, text := cur.flatten, start_char := off - curLen,
    end_char := off, length := curLen, sentence_count := cur.length }

/-- The sentence loop of `TextChunker.chunk_by_sentences` (chunker.py:93-134):
greedy packing.  When adding the next sentence would exceed the limit and the
accumulator is non-empty, the accumulator is flushed first; the sentence is
then accumulated in the same iteration.  The final non-empty accumulator is
flushed after the loop. -/
def packGo (maxC : Nat) :
    List (List Char) → List (List Char) → Nat → Nat → Nat → List SChunk
  | [], cur, curLen, off, n =>
    if cur.isEmpty then [] else [mkSChunk n cur curLen off]
  | s :: rest, cur, curLen, off, n =>
    if decide (curLen + s.length > maxC) && !cur.isEmpty then
      mkSChunk n cur curLen off ::
        packGo maxC rest [s] s.length (off + s.length) (n + 1)
    else packGo maxC rest (cur ++ [s]) (curLen + s.length) (off + s.length) n

/-- Model of `TextChunker.chunk_by_sentences` (chunker.py:68-136), computed fields
only. -/
def chunkBySentences (text : List Char) (max_chars_per_chunk : Nat) :
    List SChunk :=
  packGo max_chars_per_chunk (splitSentences text) [] 0 0 0

/-- The chunk dictionary of `chunk_by_sentences` before the metadata merge. -/
def sBaseDict (c : SChunk) : List (String × PyVal) :=
  [("chunk_id", .int c.chunk_id), ("text", .str c.text),
   ("start_char", .int c.start_char), ("end_char", .int c.end_char),
   ("length", .int c.length), ("sentence_count", .int c.sentence_count)]

/-- The chunk dictionary of `chunk_by_sentences` after the optional metadata
merge. -/
def sChunkDict (c : SChunk) (metadata : List (String × PyVal)) :
    List (String × PyVal) :=
  if metadata.isEmpty then sBaseDict c else dictUpdate (sBaseDict c) metadata

/-- Model of `TextChunker.chunk_by_sentences` including the metadata merge. -/
def chunk_by_sentences (text : List Char) (max_chars_per_chunk : Nat)
    (metadata : List (String × PyVal)) : List (List (String × PyVal)) :=
  (chunkBySentences text max_chars_per_chunk).map (fun c => sChunkDict c metadata)

/-- De-overlapping a chunk-text sequence: keep the first chunk whole and drop
the first `overlap` characters of every later chunk, then concatenate.  This
is the reconstruction operation of the spec's round-trip property. -/
def deOverlap (overlap : Nat) : List (List Char) → List Char
  | [] => []
  | c :: rest => c ++ (rest.map (List.drop overlap)).flatten

end TextChunker

/-! ## The indexer's record model (`indexer.py`)

The scanner produces one dict per media file (`path`, `name`, `ext`, `size`,
`mtime`, `kind`, plus the kind-specific sub-dict and `text_sources`).
`MediaIndexer._create_document` / `_extract_metadata` access it only through
the fields below; each field is an `Option` because the code reads it with
`.get` or an `in` guard.  Leaf values that Python passes through `str()` or an
f-string are modelled directly by their string rendering, so `str(v)` is the
identity here.  A present-but-empty sub-dict behaves exactly like an absent
one on every embedded access path, so both are modelled as `none`. -/

/-- Truthiness of an optional string value (`if d.get(k):`): present and
non-empty. -/
def truthy : Option String → Bool
  | none => false
  | some s => !s.isEmpty

/-- The value of a present optional string (used only under a `truthy`
guard). -/
def optStr (o : Option String) : String := o.getD ""

/-- The tag sub-dict (`tags`): the keys the indexer reads. -/
structure Tags where
  title : Option String
  artist : Option String
  album : Option String
deriving DecidableEq, Repr

/-- The `video` sub-dict of `video_meta`. -/
structure VideoStreamMeta where
  width : Option String
  height : Option String
  fps : Option String
  codec : Option String
deriving DecidableEq, Repr

/-- The `video_meta` dict produced by the video probe. -/
structure VideoMeta where
  duration_sec : Option String
  video : Option VideoStreamMeta
  tags : Option Tags
deriving DecidableEq, Repr

/-- The `exif` sub-dict of `image_meta`: the keys the indexer reads. -/
structure ExifMeta where
  dateTime : Option String
  model : Option String
deriving DecidableEq, Repr

/-- The `image_meta` dict. -/
structure ImageMeta where
  width : Option String
  height : Option String
  format : Option String
  exif : Option ExifMeta
deriving DecidableEq, Repr

/-- The `audio_meta` dict: the keys the indexer reads. -/
structure AudioMeta where
  duration_sec : Option String
  tags : Option Tags
deriving DecidableEq, Repr

/-- One entry of `archive_meta['entries']`: the indexer reads only
`e['name']` (always set by the archive extractor). -/
structure ArchiveEntryRef where
  name : String
deriving DecidableEq, Repr

/-- The `archive_meta` dict: the keys the indexer reads. -/
structure ArchiveMetaRef where
  entry_count : Option String
  format : Option String
  entries : Option (List ArchiveEntryRef)
deriving DecidableEq, Repr

/-- One element of `text_sources`: the indexer reads only `source_type`
(always set by the text-source extractor). -/
structure TextSourceRef where
  source_type : String
deriving DecidableEq, Repr

/-- One scanner record as consumed by `MediaIndexer`. -/
structure MediaMeta where
  kind : Option String
  name : Option String
  path : Option String
  size : Option String
  mtime : Option String
  video_meta : Option VideoMeta
  image_meta : Option ImageMeta
  audio_meta : Option AudioMeta
  archive_meta : Option ArchiveMetaRef
  text_sources : Option (List TextSourceRef)
deriving DecidableEq, Repr

namespace MediaIndexer

/-- CPython's `set(xs)` iterated into a `join`: a de-duplication of `xs`.
Its iteration order is hash-dependent in Python; it is modelled here as
first-occurrence order, which is one fixed order of the same elements. -/
def pySet (l : List String) : List String :=
  l.foldl (fun acc s => if acc.contains s then acc else acc ++ [s]) []

/-- The four basic parts of `_create_document` (indexer.py:131-134). -/
def baseParts (m : MediaMeta) : List String :=
  let kind := m.kind.getD "unknown"
  let name := m.name.getD ""
  let path := m.path.getD ""
  let size := m.size.getD "0"
  [s!"type: {kind}", s!"name: {name}", s!"path: {path}", s!"size: {size} bytes"]

/-- The video branch of `_create_document` (indexer.py:137-154). -/
def videoDocParts (v : VideoMeta) : List String :=
  (match v.duration_sec with
   | some d => [s!"duration: {d} seconds"]
   | none => []) ++
  (match v.video with
   | some vs =>
     (if truthy vs.width && truthy vs.height then
        let w := optStr vs.width
        let h := optStr vs.height
        [s!"resolution: {w}x{h}"]
      else []) ++
     (if truthy vs.fps then [s!"fps: {optStr vs.fps}"] else []) ++
     (if truthy vs.codec then [s!"codec: {optStr vs.codec}"] else [])
   | none => []) ++
  (match v.tags with
   | some t =>
     (if truthy t.title then [s!"title: {optStr t.title}"] else []) ++
     (if truthy t.artist then [s!"artist: {optStr t.artist}"] else [])
   | none => [])

/-- The image branch of `_create_document` (indexer.py:157-167). -/
def imageDocParts (im : ImageMeta) : List String :=
  (if truthy im.width && truthy im.height then
     let w := optStr im.width
     let h := optStr im.height
     [s!"resolution: {w}x{h}"]
   else []) ++
  (if truthy im.format then [s!"format: {optStr im.format}"] else []) ++
  (match im.exif with
   | some e =>
     (match e.dateTime with | some d => [s!"date: {d}"] | none => []) ++
     (match e.model with | some md => [s!"camera: {md}"] | none => [])
   | none => [])

/-- The audio branch of `_create_document` (indexer.py:170-180). -/
def audioDocParts (a : AudioMeta) : List String :=
  (match a.duration_sec with
   | some d => [s!"duration: {d} seconds"]
   | none => []) ++
  (match a.tags with
   | some t =>
     (if truthy t.title then [s!"title: {optStr t.title}"] else []) ++
     (if truthy t.artist then [s!"artist: {optStr t.artist}"] else []) ++
     (if truthy t.album then [s!"album: {optStr t.album}"] else [])
   | none => [])

/-- The archive branch of `_create_document` (indexer.py:183-190). -/
def archiveDocParts (ar : ArchiveMetaRef) : List String :=
  let cnt := ar.entry_count.getD "0"
  [s!"contains: {cnt} items"] ++
  (match ar.entries with
   | some es =>
     let top := String.intercalate ", " ((es.take 10).map ArchiveEntryRef.name)
     [s!"entries: {top}"]
   | none => [])

/-- The `elif` chain over the record's `kind` (indexer.py:137-190): the kind
strings are mutually exclusive, so the chain reduces to a case split on
`kind`, each branch guarded by the presence of its sub-dict. -/
def kindParts (m : MediaMeta) : List String :=
  if m.kind = some "video" then
    match m.video_meta with | some v => videoDocParts v | none => []
  else if m.kind = some "image" then
    match m.image_meta with | some im => imageDocParts im | none => []
  else if m.kind = some "audio" then
    match m.audio_meta with | some a => audioDocParts a | none => []
  else if m.kind = some "archive" then
    match m.archive_meta with | some ar => archiveDocParts ar | none => []
  else []

/-- The `has_text` part of `_create_document` (indexer.py:193-197). -/
def textParts (m : MediaMeta) : List String :=
  match m.text_sources with
  | some ts =>
    if ts.isEmpty then []
    else
      let st := String.intercalate ", " (pySet (ts.map TextSourceRef.source_type))
      [s!"has_text: {st}"]
  | none => []

/-- Model of `MediaIndexer._create_document` (indexer.py:113-199): the fixed-order
parts list joined with the fixed separator. -/
def createDocument (m : MediaMeta) : String :=
  String.intercalate " | " (baseParts m ++ kindParts m ++ textParts m)

end MediaIndexer

namespace ExtractMetadata

/-- The base map of `_extract_metadata` (indexer.py:211-217). -/
def basePairs (m : MediaMeta) : List (String × String) :=
  [("kind", m.kind.getD "unknown"), ("path", m.path.getD ""),
   ("size", m.size.getD "0"), ("mtime", m.mtime.getD ""),
   ("source_type", "metadata")]

/-- The `resolution` pair of the video branch of `_extract_metadata`
(indexer.py:222-223).  The code reads `vmeta['video']['height']` by subscript
after checking only that `width` is truthy; a missing `height` raises
`KeyError` (the `none` case), which `index_metadata` catches, skipping the
record. -/
def videoResPairs (video : Option VideoStreamMeta) :
    Option (List (String × String)) :=
  match video with
  | some vs =>
    if truthy vs.width then
      match vs.height with
      | some h => some [("resolution", optStr vs.width ++ "x" ++ h)]
      | none => none
    else some []
  | none => some []

/-- The video branch of `_extract_metadata` (indexer.py:220-230). -/
def videoPairs (v : VideoMeta) : Option (List (String × String)) :=
  match videoResPairs v.video with
  | none => none
  | some res =>
    some (res ++
      (match v.duration_sec with
       | some d => [("duration", d)]
       | none => []) ++
      (match v.tags with
       | some t =>
         (if truthy t.title then [("title", optStr t.title)] else []) ++
         (if truthy t.artist then [("artist", optStr t.artist)] else [])
       | none => []))

/-- The `resolution` pair of the image branch of `_extract_metadata`
(indexer.py:235-236); the same `height` subscript hazard as the video
branch. -/
def imageResPairs (im : ImageMeta) : Option (List (String × String)) :=
  if truthy im.width then
    match im.height with
    | some h => some [("resolution", optStr im.width ++ "x" ++ h)]
    | none => none
  else some []

/-- The image branch of `_extract_metadata` (indexer.py:233-238). -/
def imagePairs (im : ImageMeta) : Option (List (String × String)) :=
  match imageResPairs im with
  | none => none
  | some res =>
    some (res ++ (if truthy im.format then [("format", optStr im.format)] else []))

/-- The audio branch of `_extract_metadata` (indexer.py:241-249). -/
def audioPairs (a : AudioMeta) : List (String × String) :=
  (match a.duration_sec with
   | some d => [("duration", d)]
   | none => []) ++
  (match a.tags with
   | some t =>
     (if truthy t.title then [("title", optStr t.title)] else []) ++
     (if truthy t.artist then [("artist", optStr t.artist)] else [])
   | none => [])

/-- The archive branch of `_extract_metadata` (indexer.py:252-255). -/
def archivePairs (ar : ArchiveMetaRef) : List (String × String) :=
  [("entries", ar.entry_count.getD "0"), ("format", ar.format.getD "unknown")]

/-- The `elif` chain of `_extract_metadata` over the record's `kind`. -/
def kindPairs (m : MediaMeta) : Option (List (String × String)) :=
  if m.kind = some "video" then
    match m.video_meta with | some v => videoPairs v | none => some []
  else if m.kind = some "image" then
    match m.image_meta with | some im => imagePairs im | none => some []
  else if m.kind = some "audio" then
    match m.audio_meta with | some a => some (audioPairs a) | none => some []
  else if m.kind = some "archive" then
    match m.archive_meta with | some ar => some (archivePairs ar) | none => some []
  else some []

/-- The `has_text` pair of `_extract_metadata` (indexer.py:258-260); note the
separator here is `","`, not `", "`. -/
def textPairs (m : MediaMeta) : List (String × String) :=
  match m.text_sources with
  | some ts =>
    if ts.isEmpty then []
    else [("has_text",
           String.intercalate "," (MediaIndexer.pySet (ts.map TextSourceRef.source_type)))]
  | none => []

end ExtractMetadata

namespace MediaIndexer

/-- Model of `MediaIndexer._extract_metadata` (indexer.py:201-262): the flat
string-valued vector-store metadata map, or `none` when the Python code would
raise (a `height` subscript on a record with a truthy `width` but no
`height`). -/
def extractMetadata (m : MediaMeta) : Option (List (String × String)) :=
  match ExtractMetadata.kindPairs m with
  | none => none
  | some kp =>
    some (ExtractMetadata.basePairs m ++ kp ++ ExtractMetadata.textPairs m)

/-- The raw result of `self.db.query` as read by `_format_results`: the inner
(`[0]`-indexed) lists of the Chroma reply.  `ids` empty models both an empty
outer list and an empty inner list (the guard `not results['ids'] or not
results['ids'][0]`). -/
structure RawResults where
  ids : List String
  distances : Option (List Rat)
  metadatas : Option (List (List (String × String)))
deriving DecidableEq, Repr

/-- One formatted search result (`_format_results`, indexer.py:291-315).
`score` is the Chroma distance (a float in Python, modelled as `Rat`;
no claim depends on its arithmetic). -/
structure SearchResult where
  id : String
  score : Rat
  metadata : List (String × String)
  path : Option String
deriving DecidableEq, Repr

/-- Model of `MediaIndexer._format_results` (indexer.py:291-315).  The store is
trusted to return aligned lists, so positional access is modelled with a
default for out-of-range indices. -/
def formatResults (raw : RawResults) : List SearchResult :=
  if raw.ids.isEmpty then []
  else
    (raw.ids.mapIdx (fun i doc_id =>
      { id := doc_id,
        score := match raw.distances with
                 | some d => d.getD i 0
                 | none => 0,
        metadata := match raw.metadatas with
                    | some ms => ms.getD i []
                    | none => [],
        path := match raw.metadatas with
                | some ms => lookupS "path" (ms.getD i [])
                | none => some "" }))

/-- Model of `MediaIndexer.search` (indexer.py:264-289).  Its input is the observable
state of the store: `none` when `self.db` is `None` (store uninitialized);
`some (.error msg)` when `db.query` (or the formatting of its result) raises,
which the function catches; `some (.ok raw)` on success.  It never propagates
an exception. -/
def search (db : Option (Except String RawResults)) : List SearchResult :=
  match db with
  | none => []
  | some (.error _) => []
  | some (.ok raw) => formatResults raw

end MediaIndexer

namespace LocalLLMQueryEngine

open MediaIndexer

/-- The fixed field whitelist of the evidence/candidate construction
(query.py:146 plus `has_text`), as named by the spec. -/
def candidateWhitelist : List String :=
  ["title", "artist", "album", "resolution", "duration", "format", "entries",
   "has_text"]

/-- One reason string of `_prepare_evidence` (query.py:146-152):
`f"{key}={meta[key]}"` for the whitelisted keys, `f"has_text:{...}"` for the
text marker. -/
def evidenceReason (k v : String) : String :=
  if k = "has_text" then s!"has_text:{v}" else s!"{k}={v}"

/-- The per-result reason list of `_prepare_evidence` (query.py:143-152): the
whitelist keys in order, kept when the key is *present* in the metadata map
(`if key in meta`), then the `has_text` marker. -/
def evidenceReasons (meta : List (String × String)) : List String :=
  (["title", "artist", "album", "resolution", "duration", "format",
    "entries"].filterMap
     (fun k => (lookupS k meta).map (fun v => evidenceReason k v))) ++
  (match lookupS "has_text" meta with
   | some v => [evidenceReason "has_text" v]
   | none => [])

/-- The per-result match line of `_prepare_evidence` (query.py:154). -/
def evidenceReasonStr (meta : List (String × String)) : String :=
  let rs := evidenceReasons meta
  if rs.isEmpty then "(基本メタデータのみ)" else String.intercalate " | " rs

/-- One reason string of `_format_candidates` (query.py:295-312), by
metadata key. -/
def candReason (k v : String) : String :=
  if k = "filename_match" then s!"ファイル名: {v}"
  else if k = "resolution" then s!"解像度: {v}"
  else if k = "duration" then s!"長さ: {v}"
  else if k = "artist" then s!"アーティスト: {v}"
  else if k = "title" then s!"タイトル: {v}"
  else if k = "entries" then s!"アーカイブ内容: {v} 件"
  else s!"付随テキスト: {v}"

/-- Truthiness of `meta.get(k)` on the flat string map. -/
def truthyKey (meta : List (String × String)) (k : String) : Bool :=
  truthy (lookupS k meta)

/-- The reason list of `_format_candidates` (query.py:291-312): the keys in
source order, each kept when its value in the metadata map is truthy. -/
def candReasons (meta : List (String × String)) : List String :=
  (["filename_match", "resolution", "duration", "artist", "title", "entries",
    "has_text"].filterMap
    (fun k =>
      if truthyKey meta k then some (candReason k (optStr (lookupS k meta)))
      else none))

/-- One formatted candidate (query.py:317-325). -/
structure Candidate where
  path : String
  kind : String
  size : String
  mtime : String
  similarity : Rat
  reasons : List String
  source_type : String
deriving DecidableEq, Repr

/-- Model of `_format_candidates` per result (query.py:288-325).  `similarity` is
`round(score, 3)` in Python; the rounding of the float is not modelled (no
claim concerns it). -/
def formatCandidate (r : SearchResult) : Candidate :=
  { path := (lookupS "path" r.metadata).getD "unknown",
    kind := (lookupS "kind" r.metadata).getD "unknown",
    size := (lookupS "size" r.metadata).getD "unknown",
    mtime := (lookupS "mtime" r.metadata).getD "unknown",
    similarity := r.score,
    reasons := candReasons r.metadata,
    source_type := (lookupS "source_type" r.metadata).getD "metadata" }

/-- Model of `LocalLLMQueryEngine._format_candidates` (query.py:272-327). -/
def formatCandidates (rs : List SearchResult) : List Candidate :=
  rs.map formatCandidate

/-- The observable outcome of the HTTP call to Ollama inside `_call_llm`. -/
inductive LlmOutcome where
  /-- The `requests` library is not importable. -/
  | noRequests
  /-- HTTP 200 whose JSON body has a `response` field. -/
  | ok (response : String)
  /-- HTTP 200 whose JSON body lacks a `response` field. -/
  | okNoField
  /-- non-200 status. -/
  | httpError (code : Nat)
  /-- A `requests.exceptions.ConnectionError` was raised. -/
  | connError
  /-- A `requests.exceptions.Timeout` was raised. -/
  | timeout
  /-- any other exception, carrying `str(e)`. -/
  | exn (msg : String)
deriving DecidableEq, Repr

/-- Model of `LocalLLMQueryEngine._call_llm` (query.py:166-216): every failure mode is
caught and converted to a user-facing string; the function always returns a
string and never raises. -/
def callLlm (ollamaUrl : String) (o : LlmOutcome) : String :=
  match o with
  | .noRequests => "requests ライブラリが必要です。インストールしてください。"
  | .ok response => response
  | .okNoField => "回答を生成できませんでした。"
  | .httpError code => s!"LLM エラー: {code}"
  | .connError => s!"Ollama に接続できません。確認してください：{ollamaUrl}"
  | .timeout => "LLM のレスポンスがタイムアウトしました。"
  | .exn msg => s!"エラーが発生しました：{msg}"

/-- The result dictionary of `LocalLLMQueryEngine.query`.  The three return
sites of the Python function build dicts with different key sets; an absent
key is an `Option` field set to `none`. -/
structure QueryResult where
  error : Option String
  question : Option String
  answer : String
  candidates : Option (List Candidate)
  search_results_count : Option Nat
deriving DecidableEq, Repr

/-- The not-found answer of the empty-search branch (query.py:99). -/
def notFoundAnswer : String := "指定の条件に合うファイルが見つかりません。"

/-- The answer of the uninitialized-indexer branch (query.py:90). -/
def noIndexerAnswer : String := "申し訳ありません。システムが初期化されていません。"

/-- Model of `LocalLLMQueryEngine.query` (query.py:72-114).  `hasIndexer` is whether
`set_indexer` was called; `db` and `llm` are the observable states of the two
external collaborators.  Every path returns a structured `QueryResult`; no
exception crosses this boundary (search and the LLM call catch their own). -/
def query (ollamaUrl : String) (hasIndexer : Bool)
    (db : Option (Except String RawResults)) (question : String)
    (llm : LlmOutcome) : QueryResult :=
  if !hasIndexer then
    { error := some "Indexer not initialized", question := none,
      answer := noIndexerAnswer, candidates := none,
      search_results_count := none }
  else
    let searchResults := search db
    if searchResults.isEmpty then
      { error := none, question := some question, answer := notFoundAnswer,
        candidates := some [], search_results_count := none }
    else
      { error := none, question := some question,
        answer := callLlm ollamaUrl llm,
        candidates := some (formatCandidates searchResults),
        search_results_count := some searchResults.length }

end LocalLLMQueryEngine

namespace ArchiveListExtractor

/-- Model of `ArchiveListExtractor._has_path_traversal` (archive_list.py:271-281):
`'..' in path or path.startswith('/')`. -/
def hasPathTraversal (path : String) : Bool :=
  decide ("..".data <:+: path.data) || path.startsWith "/"

/-- One entry record of the archive listing (zip entries carry a compressed
size, tar entries do not). -/
structure ArchiveEntry where
  name : String
  size : Nat
  is_dir : Bool
  compressed_size : Option Nat
  warning : Option String
deriving DecidableEq, Repr

/-- The archive metadata dictionary built by `extract` and updated by the
per-format handlers (archive_list.py:67-75). -/
structure ArchiveMeta where
  is_archive : Bool
  format : String
  entries : List ArchiveEntry
  entry_count : Nat
  total_size_bytes : Nat
  warnings : List String
  error : Option String
  info : Option String
deriving DecidableEq, Repr

/-- The initial metadata dictionary of `extract` for a file of extension
`ext` (archive_list.py:67-75). -/
def initMeta (ext : String) : ArchiveMeta :=
  { is_archive := true, format := ext, entries := [], entry_count := 0,
    total_size_bytes := 0, warnings := [], error := none, info := none }

/-- One member of `zipfile.ZipFile.infolist()` as read by `_extract_zip`. -/
structure ZipInfo where
  filename : String
  file_size : Nat
  is_dir : Bool
  compress_size : Nat
deriving DecidableEq, Repr

/-- One member of `tarfile.getmembers()` as read by `_extract_tar`. -/
structure TarMember where
  name : String
  size : Nat
  is_dir : Bool
deriving DecidableEq, Repr

/-- The per-entry warning text (archive_list.py:125). -/
def entryTraversalWarning : String := "Possible path traversal"

/-- The archive-level traversal warning for an entry name
(archive_list.py:126). -/
def traversalWarning (name : String) : String := s!"Path traversal in: {name}"

/-- The truncation warning (archive_list.py:133): the raw entry count and the
configured cap. -/
def truncationWarning (total cap : Nat) : String :=
  s!"Archive truncated: {total} entries, showing {cap}"

/-- The large-archive warning (archive_list.py:138).  Python renders the size
in GB with one decimal via float formatting; only the presence of this
warning matters to the embedded claims, so the size is rendered as an integer
number of GB here. -/
def largeArchiveWarning (totalBytes : Nat) : String :=
  let gb := totalBytes / (1024 * 1024 * 1024)
  s!"Large archive: {gb} GB"

/-- The body of the entry loop of `_extract_zip` (archive_list.py:115-129),
over `infolist[:max_entries]`. -/
def zipEntry (info : ZipInfo) : ArchiveEntry :=
  { name := info.filename, size := info.file_size, is_dir := info.is_dir,
    compressed_size := some info.compress_size,
    warning := if hasPathTraversal info.filename then some entryTraversalWarning
               else none }

/-- Model of `ArchiveListExtractor._extract_zip` (archive_list.py:96-146) given the
outcome of opening the file: `.error e` when `zipfile.ZipFile` raises (the
message is recorded, nothing else changes), `.ok infolist` otherwise. -/
def extractZip (opened : Except String (List ZipInfo))
    (maxEntries maxSizeBytes : Nat) (meta : ArchiveMeta) : ArchiveMeta :=
  match opened with
  | .error e => { meta with error := some e }
  | .ok infolist =>
    let processed := infolist.take maxEntries
    let newEntries := processed.map zipEntry
    let travWarnings :=
      (processed.filter (fun i => hasPathTraversal i.filename)).map
        (fun i => traversalWarning i.filename)
    let total := (processed.map ZipInfo.file_size).sum
    let w₁ := meta.warnings ++ travWarnings
    let w₂ := if infolist.length > maxEntries then
                w₁ ++ [truncationWarning infolist.length maxEntries]
              else w₁
    let newTotal := meta.total_size_bytes + total
    let w₃ := if newTotal > maxSizeBytes then
                w₂ ++ [largeArchiveWarning newTotal]
              else w₂
    { meta with entries := meta.entries ++ newEntries,
                total_size_bytes := newTotal, warnings := w₃,
                entry_count := min infolist.length maxEntries }

/-- The body of the entry loop of `_extract_tar` (archive_list.py:170-183). -/
def tarEntry (member : TarMember) : ArchiveEntry :=
  { name := member.name, size := member.size, is_dir := member.is_dir,
    compressed_size := none,
    warning := if hasPathTraversal member.name then some entryTraversalWarning
               else none }

/-- Model of `ArchiveListExtractor._extract_tar` (archive_list.py:148-200), analogous
to `extractZip`. -/
def extractTar (opened : Except String (List TarMember))
    (maxEntries maxSizeBytes : Nat) (meta : ArchiveMeta) : ArchiveMeta :=
  match opened with
  | .error e => { meta with error := some e }
  | .ok members =>
    let processed := members.take maxEntries
    let newEntries := processed.map tarEntry
    let travWarnings :=
      (processed.filter (fun m => hasPathTraversal m.name)).map
        (fun m => traversalWarning m.name)
    let total := (processed.map TarMember.size).sum
    let w₁ := meta.warnings ++ travWarnings
    let w₂ := if members.length > maxEntries then
                w₁ ++ [truncationWarning members.length maxEntries]
              else w₁
    let newTotal := meta.total_size_bytes + total
    let w₃ := if newTotal > maxSizeBytes then
                w₂ ++ [largeArchiveWarning newTotal]
              else w₂
    { meta with entries := meta.entries ++ newEntries,
                total_size_bytes := newTotal, warnings := w₃,
                entry_count := min members.length maxEntries }

/-- The observable outcome of the `subprocess.run` call in the external
command handlers. -/
inductive CmdOutcome where
  /-- the command ran, with this return code and captured stdout. -/
  | ran (returncode : Nat) (stdout : String)
  /-- A `FileNotFoundError`: the binary is not installed. -/
  | notFound
  /-- any other exception, carrying `str(e)`. -/
  | exn (msg : String)
deriving DecidableEq, Repr

/-- Model of `ArchiveListExtractor._extract_7z` (archive_list.py:222-245).  On
success it records only a marker; the captured listing is never parsed, so
`entries` and `warnings` are left untouched whatever the archive contains. -/
def extract7z (run : CmdOutcome) (meta : ArchiveMeta) : ArchiveMeta :=
  match run with
  | .ran rc _ =>
    if rc = 0 then { meta with format := ".7z", info := some "7z listing available" }
    else { meta with error := some "7z command failed" }
  | .notFound => { meta with error := some "7z command not found" }
  | .exn msg => { meta with error := some msg }

/-- Model of `ArchiveListExtractor._extract_rar` (archive_list.py:247-269), the same
stub shape as `_extract_7z`. -/
def extractRar (run : CmdOutcome) (meta : ArchiveMeta) : ArchiveMeta :=
  match run with
  | .ran rc _ =>
    if rc = 0 then { meta with format := ".rar", info := some "rar listing available" }
    else { meta with error := some "unrar command failed" }
  | .notFound => { meta with error := some "unrar command not found" }
  | .exn msg => { meta with error := some msg }

end ArchiveListExtractor

namespace TextChunker

/-- The sequence of window texts `text[i:i+cs]` for `i` over
`range(0, len(text), step)` — the chunk texts of `TextChunker.chunk` before
the (never-firing) empty-window skip. -/
def windowTexts (text : List Char) (cs step : Nat) : List (List Char) :=
  (pyRange text.length step).map (fun i => (text.drop i).take cs)

end TextChunker

/-- A concrete scanner record used by the evaluation witnesses: a video file
whose probe produced no kind-specific metadata. -/
def sampleVideoRecord : MediaMeta :=
  { kind := some "video", name := some "v.mp4", path := some "/media/v.mp4",
    size := some "1024", mtime := some "2024-01-01T00:00:00",
    video_meta := none, image_meta := none, audio_meta := none,
    archive_meta := none, text_sources := none }

/-- A concrete search result whose metadata map is exactly what the indexer
commits for `sampleVideoRecord`. -/
def sampleSearchResult : MediaIndexer.SearchResult :=
  { id := "media_0", score := 0,
    metadata := (MediaIndexer.extractMetadata sampleVideoRecord).getD [],
    path := some "/media/v.mp4" }

/-! ## Dictionary lemmas (Python `dict.__setitem__` / `dict.update`) -/

theorem dictLookup_eq_none_iff (k : String) (m : List (String × PyVal)) :
    dictLookup k m = none ↔ ∀ p ∈ m, p.1 ≠ k := by
  induction m with
  | nil => simp [dictLookup]
  | cons p rest ih =>
    obtain ⟨k₁, v₁⟩ := p
    by_cases h : k₁ = k
    · subst h; simp [dictLookup]
    · simp [dictLookup, h, ih]

theorem dictLookup_map_overwrite (k : String) (v : PyVal) :
    ∀ d : List (String × PyVal), k ∈ d.map Prod.fst →
      dictLookup k (d.map (fun kv => if kv.1 = k then (k, v) else kv)) = some v := by
  intro d
  induction d with
  | nil => simp
  | cons p rest ih =>
    intro hmem
    obtain ⟨k₁, v₁⟩ := p
    rw [List.map_cons]
    by_cases h : k₁ = k
    · subst h
      rw [show (if (k₁, v₁).1 = k₁ then (k₁, v) else (k₁, v₁)) = (k₁, v) from
            if_pos rfl]
      simp [dictLookup]
    · rw [show (if (k₁, v₁).1 = k then (k, v) else (k₁, v₁)) = (k₁, v₁) from
            if_neg h]
      have hmem₁ : k ∈ rest.map Prod.fst := by
        rw [List.map_cons] at hmem
        rcases List.mem_cons.mp hmem with h₁ | h₁
        · exact absurd h₁.symm h
        · exact h₁
      simp only [dictLookup, if_neg h]
      exact ih hmem₁

theorem dictLookup_map_overwrite_ne (k k₁ : String) (v : PyVal) (h : k₁ ≠ k) :
    ∀ d : List (String × PyVal),
      dictLookup k (d.map (fun kv => if kv.1 = k₁ then (k₁, v) else kv)) =
        dictLookup k d := by
  intro d
  induction d with
  | nil => simp
  | cons p rest ih =>
    obtain ⟨k₂, v₂⟩ := p
    rw [List.map_cons]
    by_cases h₂ : k₂ = k₁
    · subst h₂
      rw [show (if (k₂, v₂).1 = k₂ then (k₂, v) else (k₂, v₂)) = (k₂, v) from
            if_pos rfl]
      simp only [dictLookup, if_neg h, if_neg (h : ¬ k₂ = k)]
      exact ih
    · rw [show (if (k₂, v₂).1 = k₁ then (k₁, v) else (k₂, v₂)) = (k₂, v₂) from
            if_neg h₂]
      by_cases h₃ : k₂ = k
      · simp only [dictLookup, if_pos h₃]
      · simp only [dictLookup, if_neg h₃]
        exact ih

theorem dictLookup_append_single_ne (k k₁ : String) (v : PyVal) (h : k₁ ≠ k) :
    ∀ d : List (String × PyVal),
      dictLookup k (d ++ [(k₁, v)]) = dictLookup k d := by
  intro d
  induction d with
  | nil => simp [dictLookup, h]
  | cons p rest ih =>
    obtain ⟨k₂, v₂⟩ := p
    by_cases h₂ : k₂ = k
    · subst h₂; simp [dictLookup]
    · simp [dictLookup, h₂, ih]

theorem dictLookup_append_of_none (k : String) (d₂ : List (String × PyVal)) :
    ∀ d₁, dictLookup k d₁ = none →
      dictLookup k (d₁ ++ d₂) = dictLookup k d₂ := by
  intro d₁
  induction d₁ with
  | nil => simp
  | cons p rest ih =>
    intro hnone
    obtain ⟨k₁, v₁⟩ := p
    by_cases h : k₁ = k
    · simp [dictLookup, h] at hnone
    · simp [dictLookup, h] at hnone ⊢
      exact ih hnone

theorem dictLookup_dictSet_self (d : List (String × PyVal)) (k : String)
    (v : PyVal) : dictLookup k (dictSet d k v) = some v := by
  unfold dictSet
  by_cases h : k ∈ d.map Prod.fst
  · rw [if_pos (by simpa using h)]
    exact dictLookup_map_overwrite k v d h
  · rw [if_neg (by simpa using h)]
    have hnone : dictLookup k d = none := by
      rw [dictLookup_eq_none_iff]
      intro p hp heq
      exact h (heq ▸ List.mem_map_of_mem Prod.fst hp)
    rw [dictLookup_append_of_none k _ d hnone]
    simp [dictLookup]

theorem dictLookup_dictSet_ne (k k₁ : String) (v : PyVal) (h : k₁ ≠ k)
    (d : List (String × PyVal)) :
    dictLookup k (dictSet d k₁ v) = dictLookup k d := by
  unfold dictSet
  by_cases hc : (d.map Prod.fst).contains k₁
  · rw [if_pos hc]
    exact dictLookup_map_overwrite_ne k k₁ v h d
  · rw [if_neg hc]
    exact dictLookup_append_single_ne k k₁ v h d

theorem dictLookup_dictUpdate_of_none (k : String) :
    ∀ (m d : List (String × PyVal)), dictLookup k m = none →
      dictLookup k (dictUpdate d m) = dictLookup k d := by
  intro m
  induction m with
  | nil => intro d _; rfl
  | cons p rest ih =>
    intro d hm
    obtain ⟨k₁, v₁⟩ := p
    by_cases h : k₁ = k
    · simp [dictLookup, h] at hm
    · simp only [dictLookup, if_neg h] at hm
      show dictLookup k (dictUpdate (dictSet d k₁ v₁) rest) = dictLookup k d
      rw [ih _ hm, dictLookup_dictSet_ne k k₁ v₁ h]

theorem dictLookup_dictUpdate_of_some (k : String) (v : PyVal) :
    ∀ (m d : List (String × PyVal)), (m.map Prod.fst).Nodup →
      dictLookup k m = some v → dictLookup k (dictUpdate d m) = some v := by
  intro m
  induction m with
  | nil => simp [dictLookup]
  | cons p rest ih =>
    intro d hnd hm
    obtain ⟨k₁, v₁⟩ := p
    by_cases h : k₁ = k
    · subst h
      have hv : v₁ = v := by simpa [dictLookup] using hm
      subst hv
      have hnd₀ : (k₁ :: rest.map Prod.fst).Nodup := by simpa using hnd
      have hnotin : k₁ ∉ rest.map Prod.fst := (List.nodup_cons.mp hnd₀).1
      have hrest : dictLookup k₁ rest = none := by
        rw [dictLookup_eq_none_iff]
        intro p hp heq
        exact hnotin (heq ▸ List.mem_map_of_mem Prod.fst hp)
      show dictLookup k₁ (dictUpdate (dictSet d k₁ v₁) rest) = some v₁
      rw [dictLookup_dictUpdate_of_none _ _ _ hrest, dictLookup_dictSet_self]
    · have hm₁ : dictLookup k rest = some v := by simpa [dictLookup, h] using hm
      have hnd₁ : (rest.map Prod.fst).Nodup :=
        (List.nodup_cons.mp (by simpa using hnd)).2
      exact ih (dictSet d k₁ v₁) hnd₁ hm₁

/-- C10.  In both chunking operations the caller metadata is merged into the
chunk dictionary after the computed fields, so any caller key silently
overwrites the computed value of the same name in every produced chunk, and
the computed fields survive exactly for keys the metadata does not contain. -/
theorem c10_metadata_overwrites_computed (text : List Char)
    (cs ov maxC : Nat) (metadata : List (String × PyVal))
    (hnd : (metadata.map Prod.fst).Nodup) :
    (∀ l, TextChunker.chunkRecords text cs ov = .ok l → ∀ c ∈ l,
       (∀ k v, dictLookup k metadata = some v →
          dictLookup k (TextChunker.chunkDict c metadata) = some v) ∧
       (∀ k, dictLookup k metadata = none →
          dictLookup k (TextChunker.chunkDict c metadata) =
            dictLookup k (TextChunker.baseDict c))) ∧
    (∀ c ∈ TextChunker.chunkBySentences text maxC,
       (∀ k v, dictLookup k metadata = some v →
          dictLookup k (TextChunker.sChunkDict c metadata) = some v) ∧
       (∀ k, dictLookup k metadata = none →
          dictLookup k (TextChunker.sChunkDict c metadata) =
            dictLookup k (TextChunker.sBaseDict c))) := by
  have hdict : ∀ (base : List (String × PyVal)),
      (∀ k v, dictLookup k metadata = some v →
         dictLookup k (if metadata.isEmpty then base
                       else dictUpdate base metadata) = some v) ∧
      (∀ k, dictLookup k metadata = none →
         dictLookup k (if metadata.isEmpty then base
                       else dictUpdate base metadata) = dictLookup k base) := by
    intro base
    constructor
    · intro k v hkv
      have hne : ¬ metadata.isEmpty := by
        cases metadata with
        | nil => simp [dictLookup] at hkv
        | cons p rest => simp
      rw [if_neg hne]
      exact dictLookup_dictUpdate_of_some k v metadata base hnd hkv
    · intro k hk
      by_cases he : metadata.isEmpty
      · rw [if_pos he]
      · rw [if_neg he]
        exact dictLookup_dictUpdate_of_none k metadata base hk
  constructor
  · intro l _ c _
    exact hdict (TextChunker.baseDict c)
  · intro c _
    exact hdict (TextChunker.sBaseDict c)

/-- C10 witness: the caller metadata key `chunk_id` overwrites the computed
chunk id in a concretely computed chunk of both operations. -/
theorem c10_witness :
    (∀ l, TextChunker.chunkRecords ('a' :: ['b', 'c', 'd']) 3 1 = .ok l →
       ∀ c ∈ l,
       (∀ k v, dictLookup k [("chunk_id", PyVal.int 99)] = some v →
          dictLookup k (TextChunker.chunkDict c [("chunk_id", PyVal.int 99)]) = some v) ∧
       (∀ k, dictLookup k [("chunk_id", PyVal.int 99)] = none →
          dictLookup k (TextChunker.chunkDict c [("chunk_id", PyVal.int 99)]) =
            dictLookup k (TextChunker.baseDict c))) ∧
    (∀ c ∈ TextChunker.chunkBySentences ('a' :: ['b', 'c', 'd']) 2,
       (∀ k v, dictLookup k [("chunk_id", PyVal.int 99)] = some v →
          dictLookup k (TextChunker.sChunkDict c [("chunk_id", PyVal.int 99)]) = some v) ∧
       (∀ k, dictLookup k [("chunk_id", PyVal.int 99)] = none →
          dictLookup k (TextChunker.sChunkDict c [("chunk_id", PyVal.int 99)]) =
            dictLookup k (TextChunker.sBaseDict c))) :=
  c10_metadata_overwrites_computed ('a' :: ['b', 'c', 'd']) 3 1 2
    [("chunk_id", PyVal.int 99)] (by decide)

/-! ## Fixed-window chunker lemmas -/

namespace TextChunker

theorem pyRange_zero (step : Nat) : pyRange 0 step = [] := by
  have h : (0 + step - 1) / step = 0 := by
    rcases Nat.eq_zero_or_pos step with h | h
    · subst h; simp
    · exact Nat.div_eq_of_lt (by omega)
  unfold pyRange
  rw [h]
  rfl

theorem pyRange_eq (stop step : Nat) (hstep : 0 < step) (hstop : 0 < stop) :
    pyRange stop step = 0 :: (pyRange (stop - step) step).map (· + step) := by
  unfold pyRange
  have hcount : (stop + step - 1) / step = (stop - step + step - 1) / step + 1 := by
    rcases Nat.lt_or_ge stop step with h | h
    · have h1 : stop - step = 0 := by omega
      have h2 : stop + step - 1 = (stop - 1) + step := by omega
      rw [h1, h2, Nat.add_div_right _ hstep]
      have h3 : (stop - 1) / step = 0 := Nat.div_eq_of_lt (by omega)
      have h4 : (0 + step - 1) / step = 0 := Nat.div_eq_of_lt (by omega)
      omega
    · have h2 : stop + step - 1 = (stop - 1) + step := by omega
      have h4 : stop - step + step - 1 = stop - 1 := by omega
      rw [h2, h4, Nat.add_div_right _ hstep]
  rw [hcount, List.range_succ_eq_map]
  simp only [List.map_cons, List.map_map, Nat.zero_mul]
  refine congrArg (0 :: ·) (List.map_congr_left ?_)
  intro x _
  simp [Function.comp, Nat.succ_mul]

theorem pyRange_mem_lt (step : Nat) (hstep : 0 < step) :
    ∀ stop, ∀ i ∈ pyRange stop step, i < stop := by
  intro stop
  induction stop using Nat.strong_induction_on with
  | _ stop ih =>
    intro i hi
    rcases Nat.eq_zero_or_pos stop with h | h
    · subst h; rw [pyRange_zero] at hi; cases hi
    · rw [pyRange_eq stop step hstep h] at hi
      rcases List.mem_cons.mp hi with h₁ | h₁
      · omega
      · obtain ⟨j, hj, rfl⟩ := List.mem_map.mp h₁
        have := ih (stop - step) (by omega) j hj
        omega

theorem windowTexts_eq (text : List Char) (cs step : Nat) (hstep : 0 < step) :
    windowTexts text cs step =
      if text = [] then []
      else text.take cs :: windowTexts (text.drop step) cs step := by
  by_cases hne : text = []
  · subst hne
    simp [windowTexts, pyRange_zero]
  · have hlen : 0 < text.length := List.length_pos.mpr hne
    rw [if_neg hne]
    unfold windowTexts
    rw [pyRange_eq text.length step hstep hlen, List.map_cons, List.map_map,
      List.length_drop, List.drop_zero]
    refine congrArg (_ :: ·) (List.map_congr_left ?_)
    intro i _
    simp [Function.comp, List.drop_drop, Nat.add_comm]

theorem windowTexts_drop_flatten (cs ov : Nat) (hov : ov < cs) :
    ∀ text : List Char,
      ((windowTexts text cs (cs - ov)).map (List.drop ov)).flatten =
        text.drop ov := by
  have hstep : 0 < cs - ov := by omega
  suffices H : ∀ n, ∀ text : List Char, text.length = n →
      ((windowTexts text cs (cs - ov)).map (List.drop ov)).flatten =
        text.drop ov by
    intro text; exact H text.length text rfl
  intro n
  induction n using Nat.strong_induction_on with
  | _ n ih =>
    intro text hn
    by_cases hne : text = []
    · subst hne; simp [windowTexts, pyRange_zero]
    · have hlen : 0 < text.length := List.length_pos.mpr hne
      rw [windowTexts_eq text cs (cs - ov) hstep, if_neg hne, List.map_cons,
        List.flatten_cons]
      have ihx := ih ((text.drop (cs - ov)).length)
        (by rw [List.length_drop]; omega) (text.drop (cs - ov)) rfl
      rw [ihx, List.drop_drop]
      have h₁ : cs - ov + ov = cs := by omega
      rw [h₁]
      have h₂ : text.drop cs = (text.drop ov).drop (cs - ov) := by
        rw [List.drop_drop]
        congr 1
        omega
      have h₃ : (text.take cs).drop ov = (text.drop ov).take (cs - ov) := by
        rw [List.drop_take]
      rw [h₂, h₃, List.take_append_drop]

theorem windowTexts_deOverlap (cs ov : Nat) (hov : ov < cs)
    (text : List Char) :
    deOverlap ov (windowTexts text cs (cs - ov)) = text := by
  have hstep : 0 < cs - ov := by omega
  by_cases hne : text = []
  · subst hne; simp [windowTexts, pyRange_zero, deOverlap]
  · rw [windowTexts_eq text cs (cs - ov) hstep, if_neg hne]
    show text.take cs ++
      ((windowTexts (text.drop (cs - ov)) cs (cs - ov)).map (List.drop ov)).flatten
        = text
    rw [windowTexts_drop_flatten cs ov hov, List.drop_drop]
    have h₁ : cs - ov + ov = cs := by omega
    rw [h₁, List.take_append_drop]

theorem windowTexts_length_le (text : List Char) (cs step : Nat) :
    ∀ w ∈ windowTexts text cs step, w.length ≤ cs := by
  intro w hw
  obtain ⟨i, _, rfl⟩ := List.mem_map.mp hw
  rw [List.length_take]
  omega

theorem windowTexts_chain (cs step : Nat) (hstep : 0 < step) :
    ∀ text : List Char,
      List.Chain' (fun a b : List Char => b.length ≤ a.length)
        (windowTexts text cs step) := by
  suffices H : ∀ n, ∀ text : List Char, text.length = n →
      List.Chain' (fun a b : List Char => b.length ≤ a.length)
        (windowTexts text cs step) by
    intro text; exact H text.length text rfl
  intro n
  induction n using Nat.strong_induction_on with
  | _ n ih =>
    intro text hn
    by_cases hne : text = []
    · subst hne; simp [windowTexts, pyRange_zero]
    · have hlen : 0 < text.length := List.length_pos.mpr hne
      rw [windowTexts_eq text cs step hstep, if_neg hne, List.chain'_cons']
      constructor
      · intro w hw
        rw [windowTexts_eq _ cs step hstep] at hw
        cases hd : text.drop step with
        | nil => rw [hd] at hw; simp at hw
        | cons c t =>
          rw [hd, if_neg (List.cons_ne_nil c t)] at hw
          simp only [List.head?_cons, Option.mem_def, Option.some.injEq] at hw
          subst hw
          have hlt : (c :: t).length = text.length - step := by
            rw [← hd, List.length_drop]
          rw [List.length_take, List.length_take, hlt]
          omega
      · exact ih ((text.drop step).length)
          (by rw [List.length_drop]; omega) (text.drop step) rfl

theorem foldl_chunkStep_texts (text : List Char) (cs : Nat) :
    ∀ (is : List Nat) (acc : List Chunk),
      (is.foldl (chunkStep text cs) acc).map Chunk.text
        = acc.map Chunk.text ++
          ((is.map (fun i => (text.drop i).take cs)).filter
            (fun t => decide (t.length ≠ 0))) := by
  intro is
  induction is with
  | nil => intro acc; simp
  | cons i rest ih =>
    intro acc
    rw [List.foldl_cons, ih, List.map_cons]
    by_cases h : ((text.drop i).take cs).length = 0
    · rw [show chunkStep text cs acc i = acc from by
        unfold chunkStep; rw [if_pos h]]
      rw [List.filter_cons_of_neg
        (by simp only [decide_eq_true_eq]; exact not_not_intro h)]
    · rw [show chunkStep text cs acc i
          = acc ++ [{ chunk_id := acc.length, text := (text.drop i).take cs,
                      start_char := i, end_char := min (i + cs) text.length,
                      length := ((text.drop i).take cs).length }] from by
        unfold chunkStep; rw [if_neg h]]
      rw [List.filter_cons_of_pos
        (by simp only [decide_eq_true_eq]; exact h)]
      simp

theorem foldl_chunkStep_mem (text : List Char) (cs : Nat) (P : Chunk → Prop)
    (hP : ∀ i n, P { chunk_id := n, text := (text.drop i).take cs,
                     start_char := i, end_char := min (i + cs) text.length,
                     length := ((text.drop i).take cs).length }) :
    ∀ (is : List Nat) (acc : List Chunk), (∀ c ∈ acc, P c) →
      ∀ c ∈ is.foldl (chunkStep text cs) acc, P c := by
  intro is
  induction is with
  | nil => intro acc hacc c hc; exact hacc c hc
  | cons i rest ih =>
    intro acc hacc c hc
    rw [List.foldl_cons] at hc
    refine ih (chunkStep text cs acc i) ?_ c hc
    intro d hd
    unfold chunkStep at hd
    by_cases h : ((text.drop i).take cs).length = 0
    · rw [if_pos h] at hd; exact hacc d hd
    · rw [if_neg h] at hd
      rcases List.mem_append.mp hd with h₁ | h₁
      · exact hacc d h₁
      · rw [List.mem_singleton] at h₁
        subst h₁
        exact hP i acc.length

/-- The chunk texts of the `.ok` branch are exactly the window texts: for a
positive window size no window below the text length is empty, so the
`continue` never fires. -/
theorem chunkRecords_texts (text : List Char) (cs ov : Nat) (hov : ov < cs) :
    ∀ l, chunkRecords text cs ov = .ok l →
      l.map Chunk.text = windowTexts text cs (cs - ov) := by
  intro l hl
  unfold chunkRecords at hl
  by_cases he : text.isEmpty
  · rw [if_pos he] at hl
    injection hl with h
    subst h
    have h₀ : text = [] := by
      cases text with
      | nil => rfl
      | cons c t => simp at he
    subst h₀
    simp [windowTexts, pyRange_zero]
  · rw [if_neg he, if_neg (by omega : ¬ cs = ov), if_neg (by omega : ¬ cs < ov)]
      at hl
    injection hl with h
    subst h
    rw [foldl_chunkStep_texts, List.map_nil, List.nil_append]
    rw [List.filter_eq_self.mpr]
    · rfl
    · intro w hw
      obtain ⟨i, hi, rfl⟩ := List.mem_map.mp hw
      have hilt : i < text.length :=
        pyRange_mem_lt (cs - ov) (by omega) text.length i hi
      simp only [decide_eq_true_eq]
      rw [List.length_take, List.length_drop]
      omega

theorem chunkRecords_length_field (text : List Char) (cs ov : Nat) :
    ∀ l, chunkRecords text cs ov = .ok l → ∀ c ∈ l, c.length = c.text.length := by
  intro l hl c hc
  unfold chunkRecords at hl
  by_cases he : text.isEmpty
  · rw [if_pos he] at hl
    injection hl with h
    subst h
    cases hc
  · by_cases h1 : cs = ov
    · rw [if_neg he, if_pos h1] at hl
      simp at hl
    · by_cases h2 : cs < ov
      · rw [if_neg he, if_neg h1, if_pos h2] at hl
        injection hl with h
        subst h
        cases hc
      · rw [if_neg he, if_neg h1, if_neg h2] at hl
        injection hl with h
        subst h
        exact foldl_chunkStep_mem text cs (fun c => c.length = c.text.length)
          (fun _ _ => rfl) _ [] (by intro d hd; cases hd) c hc

end TextChunker

/-- C3 counterexample.  The claim says `chunk` itself checks the
precondition `overlap < chunk_size` and detects an invalid configuration.
At `chunk_size = 3`, `overlap = 4` (an invalid configuration) the function
performs no check: the loop range is empty and it silently returns the empty
chunk list, signalling nothing. -/
theorem c3_counterexample :
    3 ≤ 4 ∧
    TextChunker.chunkRecords ('a' :: ['b']) 3 4 = Except.ok [] := by
  constructor
  · decide
  · rfl

/-- C3 (amended).  `chunk` contains no precondition check of its own.  For
`overlap ≥ chunk_size` on non-empty text it either propagates the
`ValueError` that Python's `range` raises for a zero step
(`overlap = chunk_size`) or — for `overlap > chunk_size`, a negative step —
returns the empty chunk list with no error at all; the loop always
terminates and never yields a chunk. -/
theorem c3_amended_no_precondition_check (text : List Char) (cs ov : Nat)
    (h : cs ≤ ov) :
    (TextChunker.chunkRecords text cs ov = .error TextChunker.rangeStepError ↔
       (cs = ov ∧ text ≠ [])) ∧
    (∀ l, TextChunker.chunkRecords text cs ov = .ok l → l = []) := by
  unfold TextChunker.chunkRecords
  by_cases he : text.isEmpty
  · have h0 : text = [] := by
      cases text with
      | nil => rfl
      | cons c t => simp at he
    rw [if_pos he]
    constructor
    · constructor
      · intro hh; simp at hh
      · rintro ⟨_, hne⟩; exact absurd h0 hne
    · intro l hl
      injection hl with h₁
      exact h₁.symm
  · have hne : text ≠ [] := by
      intro h0; subst h0; simp at he
    by_cases h1 : cs = ov
    · rw [if_neg he, if_pos h1]
      constructor
      · simp [h1, hne]
      · intro l hl; simp at hl
    · have h2 : cs < ov := by omega
      rw [if_neg he, if_neg h1, if_pos h2]
      constructor
      · constructor
        · intro hh; simp at hh
        · rintro ⟨hcc, _⟩; exact absurd hcc h1
      · intro l hl
        injection hl with h₁
        exact h₁.symm

/-- C3 witness: the amended behaviour at the concrete invalid configuration
`chunk_size = overlap = 3`. -/
theorem c3_witness :
    (TextChunker.chunkRecords ('a' :: ['b']) 3 3 =
        .error TextChunker.rangeStepError ↔
       (3 = 3 ∧ ('a' :: ['b'] : List Char) ≠ [])) ∧
    (∀ l, TextChunker.chunkRecords ('a' :: ['b']) 3 3 = .ok l → l = []) :=
  c3_amended_no_precondition_check ('a' :: ['b']) 3 3 (by decide)

/-- C4 counterexample.  At `text = "abcd"`, `chunk_size = 3`,
`overlap = 2` (a valid configuration, `overlap < chunk_size`) the produced
chunk texts are `["abc", "bcd", "cd", "d"]`: the third chunk is shorter than
`chunk_size` yet is not the last chunk, refuting "only the last chunk allowed
to be shorter". -/
theorem c4_counterexample :
    2 < 3 ∧
    ¬ (∀ c ∈ ((TextChunker.chunkRecords ('a' :: ['b', 'c', 'd']) 3
                2).toOption.getD []).dropLast,
        c.text.length = 3) := by
  constructor
  · decide
  · decide

/-- C4 (amended).  For `overlap < chunk_size`: keeping the first chunk whole
and dropping the first `overlap` characters of every later chunk
reconstructs the text exactly; every chunk's length is at most `chunk_size`;
and chunk text lengths are non-increasing, so the chunks shorter than
`chunk_size` form a suffix of the sequence — when the overlap exceeds the
window advance there can be several short trailing chunks, not only the
last. -/
theorem c4_reconstruction_and_lengths (text : List Char) (cs ov : Nat)
    (hov : ov < cs) (l : List TextChunker.Chunk)
    (hl : TextChunker.chunkRecords text cs ov = .ok l) :
    TextChunker.deOverlap ov (l.map TextChunker.Chunk.text) = text ∧
    (∀ c ∈ l, c.text.length ≤ cs ∧ c.length = c.text.length) ∧
    List.Chain' (fun a b => b.text.length ≤ a.text.length) l := by
  have htexts := TextChunker.chunkRecords_texts text cs ov hov l hl
  refine ⟨?_, ?_, ?_⟩
  · rw [htexts]
    exact TextChunker.windowTexts_deOverlap cs ov hov text
  · intro c hc
    constructor
    · have hmem : c.text ∈ TextChunker.windowTexts text cs (cs - ov) :=
        htexts ▸ List.mem_map_of_mem TextChunker.Chunk.text hc
      exact TextChunker.windowTexts_length_le text cs (cs - ov) _ hmem
    · exact TextChunker.chunkRecords_length_field text cs ov l hl c hc
  · have hchain := TextChunker.windowTexts_chain cs (cs - ov) (by omega) text
    rw [← htexts] at hchain
    exact (List.chain'_map TextChunker.Chunk.text).mp hchain

/-- C4 witness: the amended statement at the concrete input `"abcdef"`,
`chunk_size = 4`, `overlap = 1`. -/
theorem c4_witness :
    TextChunker.deOverlap 1
        (((TextChunker.chunkRecords ('a' :: ['b', 'c', 'd', 'e', 'f']) 4
            1).toOption.getD []).map TextChunker.Chunk.text) =
      'a' :: ['b', 'c', 'd', 'e', 'f'] ∧
    (∀ c ∈ (TextChunker.chunkRecords ('a' :: ['b', 'c', 'd', 'e', 'f']) 4
              1).toOption.getD [],
       c.text.length ≤ 4 ∧ c.length = c.text.length) ∧
    List.Chain' (fun a b => b.text.length ≤ a.text.length)
      ((TextChunker.chunkRecords ('a' :: ['b', 'c', 'd', 'e', 'f']) 4
          1).toOption.getD []) :=
  c4_reconstruction_and_lengths ('a' :: ['b', 'c', 'd', 'e', 'f']) 4 1
    (by decide) _ rfl

/-! ## Sentence-bounded chunker lemmas -/

namespace TextChunker

/-- The greedy packer puts every sentence whole into exactly one chunk: the
chunk texts are the flattenings of a partition of the sentence list into
consecutive non-empty groups. -/
theorem packGo_groups (maxC : Nat) :
    ∀ (ss cur : List (List Char)) (curLen off n : Nat),
      ∃ gs : List (List (List Char)),
        gs.flatten = cur ++ ss ∧
        (∀ g ∈ gs, g ≠ []) ∧
        (packGo maxC ss cur curLen off n).map SChunk.text =
          gs.map List.flatten := by
  intro ss
  induction ss with
  | nil =>
    intro cur curLen off n
    by_cases hc : cur.isEmpty
    · have h0 : cur = [] := by
        cases cur with
        | nil => rfl
        | cons g t => simp at hc
      exact ⟨[], by simp [h0], by simp, by simp [packGo, hc]⟩
    · have h0 : cur ≠ [] := by intro h; subst h; simp at hc
      exact ⟨[cur], by simp, by simpa using h0, by simp [packGo, hc, mkSChunk]⟩
  | cons s rest ih =>
    intro cur curLen off n
    by_cases hcond : (decide (curLen + s.length > maxC) && !cur.isEmpty) = true
    · obtain ⟨gs, hflat, hne, htexts⟩ := ih [s] s.length (off + s.length) (n + 1)
      refine ⟨cur :: gs, ?_, ?_, ?_⟩
      · simp [hflat]
      · intro g hg
        have hcur : cur ≠ [] := by
          intro h0
          subst h0
          simp at hcond
        rcases List.mem_cons.mp hg with h | h
        · rw [h]; exact hcur
        · exact hne g h
      · rw [show packGo maxC (s :: rest) cur curLen off n =
              mkSChunk n cur curLen off ::
                packGo maxC rest [s] s.length (off + s.length) (n + 1) from by
            simp only [packGo]; rw [if_pos hcond]]
        rw [List.map_cons, htexts, List.map_cons]
        rfl
    · obtain ⟨gs, hflat, hne, htexts⟩ :=
        ih (cur ++ [s]) (curLen + s.length) (off + s.length) n
      refine ⟨gs, ?_, hne, ?_⟩
      · rw [hflat]; simp
      · rw [show packGo maxC (s :: rest) cur curLen off n =
              packGo maxC rest (cur ++ [s]) (curLen + s.length)
                (off + s.length) n from by
            simp only [packGo]; rw [if_neg hcond]]
        exact htexts

/-- The state invariant of the greedy packer: ids are consecutive from `n`,
each chunk's offsets locate its text inside `full` (the concatenation of all
sentences), adjacent chunks abut, and the head chunk starts at the current
window start. -/
theorem packGo_spec (maxC : Nat) (full : List Char) :
    ∀ (ss cur : List (List Char)) (curLen off n : Nat),
      curLen = cur.flatten.length →
      curLen ≤ off →
      full.drop (off - curLen) = cur.flatten ++ ss.flatten →
      ((packGo maxC ss cur curLen off n).map SChunk.chunk_id
          = List.range' n (packGo maxC ss cur curLen off n).length ∧
       (∀ c ∈ packGo maxC ss cur curLen off n,
          c.start_char ≤ c.end_char ∧
          c.end_char - c.start_char = c.length ∧
          c.text.length = c.length ∧
          (full.drop c.start_char).take c.length = c.text) ∧
       (∀ c ∈ (packGo maxC ss cur curLen off n).head?,
          c.start_char = off - curLen) ∧
       List.Chain' (fun a b => a.end_char = b.start_char)
         (packGo maxC ss cur curLen off n)) := by
  intro ss
  induction ss with
  | nil =>
    intro cur curLen off n h1 h2 h3
    by_cases hc : cur.isEmpty
    · rw [show packGo maxC [] cur curLen off n = [] from by simp [packGo, hc]]
      refine ⟨rfl, ?_, ?_, ?_⟩
      · intro c hc'; cases hc'
      · intro c hc'; cases hc'
      · simp
    · rw [show packGo maxC [] cur curLen off n = [mkSChunk n cur curLen off]
            from by simp [packGo, hc]]
      have hflat3 : full.drop (off - curLen) = cur.flatten := by simpa using h3
      refine ⟨by simp [mkSChunk, List.range'_one], ?_, ?_, by simp⟩
      · intro c hc'
        rw [List.mem_singleton] at hc'
        subst hc'
        simp only [mkSChunk]
        refine ⟨by omega, by omega, h1.symm, ?_⟩
        rw [hflat3, h1]
        exact List.take_length _
      · intro c hc'
        simp only [List.head?_cons, Option.mem_def, Option.some.injEq] at hc'
        subst hc'
        rfl
  | cons s rest ih =>
    intro cur curLen off n h1 h2 h3
    by_cases hcond : (decide (curLen + s.length > maxC) && !cur.isEmpty) = true
    · have hstep : packGo maxC (s :: rest) cur curLen off n =
          mkSChunk n cur curLen off ::
            packGo maxC rest [s] s.length (off + s.length) (n + 1) := by
        simp only [packGo]; rw [if_pos hcond]
      have ih3 : full.drop ((off + s.length) - s.length) =
          ([s] : List (List Char)).flatten ++ rest.flatten := by
        have hoff : (off + s.length) - s.length = off := by omega
        rw [hoff]
        have hdrop : full.drop off = (full.drop (off - curLen)).drop curLen := by
          rw [List.drop_drop]; congr 1; omega
        rw [hdrop, h3]
        conv_lhs => rw [h1]
        rw [List.drop_left]
        simp
      obtain ⟨hids, hmem, hhead, hchain⟩ :=
        ih [s] s.length (off + s.length) (n + 1) (by simp) (by omega) ih3
      rw [hstep]
      refine ⟨?_, ?_, ?_, ?_⟩
      · rw [List.map_cons, hids, List.length_cons,
          show (mkSChunk n cur curLen off).chunk_id = n from rfl,
          List.range'_succ]
      · intro c hc'
        rcases List.mem_cons.mp hc' with h | h
        · subst h
          simp only [mkSChunk]
          refine ⟨by omega, by omega, h1.symm, ?_⟩
          rw [h3, h1]
          exact List.take_left _ _
        · exact hmem c h
      · intro c hc'
        simp only [List.head?_cons, Option.mem_def, Option.some.injEq] at hc'
        subst hc'
        rfl
      · rw [List.chain'_cons']
        refine ⟨?_, hchain⟩
        intro b hb
        have hbs := hhead b hb
        show (mkSChunk n cur curLen off).end_char = b.start_char
        simp only [mkSChunk]
        omega
    · have hstep : packGo maxC (s :: rest) cur curLen off n =
          packGo maxC rest (cur ++ [s]) (curLen + s.length) (off + s.length) n := by
        simp only [packGo]; rw [if_neg hcond]
      have ih1 : curLen + s.length = ((cur ++ [s]).flatten).length := by
        simp [h1]
      have ih3 : full.drop ((off + s.length) - (curLen + s.length)) =
          ((cur ++ [s]).flatten) ++ rest.flatten := by
        have hoff : (off + s.length) - (curLen + s.length) = off - curLen := by
          omega
        rw [hoff, h3]
        simp
      obtain ⟨hids, hmem, hhead, hchain⟩ :=
        ih (cur ++ [s]) (curLen + s.length) (off + s.length) n ih1 (by omega) ih3
      rw [hstep]
      refine ⟨hids, hmem, ?_, hchain⟩
      intro c hc'
      have := hhead c hc'
      omega

end TextChunker

/-- C5.  `chunk_by_sentences` never splits a sentence across chunks: its
chunk texts are the concatenations of a partition of the sentence list into
consecutive non-empty groups (so a sentence longer than
`max_chars_per_chunk` is kept whole inside one chunk), and the final partial
accumulation is flushed — a non-empty sentence list always produces at least
one chunk. -/
theorem c5_sentences_never_split (text : List Char) (maxC : Nat) :
    ∃ gs : List (List (List Char)),
      gs.flatten = TextChunker.splitSentences text ∧
      (∀ g ∈ gs, g ≠ []) ∧
      (TextChunker.chunkBySentences text maxC).map TextChunker.SChunk.text =
        gs.map List.flatten ∧
      (TextChunker.splitSentences text ≠ [] →
        TextChunker.chunkBySentences text maxC ≠ []) := by
  obtain ⟨gs, hflat, hne, htexts⟩ :=
    TextChunker.packGo_groups maxC (TextChunker.splitSentences text) [] 0 0 0
  refine ⟨gs, by simpa using hflat, hne, htexts, ?_⟩
  intro hsne hempty
  have hempty₁ : TextChunker.packGo maxC (TextChunker.splitSentences text) [] 0 0 0
      = [] := hempty
  rw [hempty₁] at htexts
  have hgs : gs = [] := by
    cases gs with
    | nil => rfl
    | cons g t => simp at htexts
  subst hgs
  exact hsne (by simpa using hflat.symm)

/-- C5 witness: the grouping property at the concrete input `"ab. cd."` with
limit 4. -/
theorem c5_witness :
    ∃ gs : List (List (List Char)),
      gs.flatten =
        TextChunker.splitSentences ('a' :: ['b', '.', ' ', 'c', 'd', '.']) ∧
      (∀ g ∈ gs, g ≠ []) ∧
      (TextChunker.chunkBySentences ('a' :: ['b', '.', ' ', 'c', 'd', '.'])
          4).map TextChunker.SChunk.text = gs.map List.flatten ∧
      (TextChunker.splitSentences ('a' :: ['b', '.', ' ', 'c', 'd', '.']) ≠ [] →
        TextChunker.chunkBySentences ('a' :: ['b', '.', ' ', 'c', 'd', '.'])
          4 ≠ []) :=
  c5_sentences_never_split ('a' :: ['b', '.', ' ', 'c', 'd', '.']) 4

/-- C6 counterexample.  The claim says `start_char`/`end_char` are character
positions relative to the input string.  On input `"\na."` the sentence
splitter drops the whitespace-only segment before the newline, so the single
produced chunk has `start_char = 0`, `end_char = 2` but text `"a."`, which is
not the input's slice `[0, 2)` (that slice is `"\na"`). -/
theorem c6_counterexample :
    ¬ (∀ c ∈ TextChunker.chunkBySentences ('\n' :: ['a', '.']) 512,
        ((('\n' :: ['a', '.']).drop c.start_char).take
            (c.end_char - c.start_char)) = c.text) := by
  decide

/-- C6 (amended).  Chunk ids are the zero-based sequence `0, 1, …` restarting
per call; `start_char`/`end_char` are consistent positions relative to the
*concatenation of the extracted sentences* (the input minus the
whitespace-only segments the sentence splitter drops, which coincides with
the input when nothing is dropped): each chunk's text occurs at
`[start_char, end_char)` of that concatenation, `end_char - start_char` is
the chunk length, and offsets are monotonically non-decreasing — adjacent
chunks abut exactly. -/
theorem c6_amended_ids_offsets (text : List Char) (maxC : Nat) :
    (TextChunker.chunkBySentences text maxC).map TextChunker.SChunk.chunk_id =
      List.range (TextChunker.chunkBySentences text maxC).length ∧
    (∀ c ∈ TextChunker.chunkBySentences text maxC,
       c.start_char ≤ c.end_char ∧
       c.end_char - c.start_char = c.length ∧
       c.text.length = c.length ∧
       ((TextChunker.splitSentences text).flatten.drop c.start_char).take
           c.length = c.text) ∧
    List.Chain' (fun a b => a.end_char = b.start_char)
      (TextChunker.chunkBySentences text maxC) := by
  obtain ⟨hids, hmem, _, hchain⟩ :=
    TextChunker.packGo_spec maxC (TextChunker.splitSentences text).flatten
      (TextChunker.splitSentences text) [] 0 0 0 (by simp) (by omega) (by simp)
  exact ⟨by simpa [List.range_eq_range'] using hids, hmem, hchain⟩

/-- C6 witness: the amended statement at the concrete input `"ab. cd."` with
limit 4. -/
theorem c6_witness :
    (TextChunker.chunkBySentences ('a' :: ['b', '.', ' ', 'c', 'd', '.'])
        4).map TextChunker.SChunk.chunk_id =
      List.range (TextChunker.chunkBySentences
        ('a' :: ['b', '.', ' ', 'c', 'd', '.']) 4).length ∧
    (∀ c ∈ TextChunker.chunkBySentences ('a' :: ['b', '.', ' ', 'c', 'd', '.'])
        4,
       c.start_char ≤ c.end_char ∧
       c.end_char - c.start_char = c.length ∧
       c.text.length = c.length ∧
       ((TextChunker.splitSentences
           ('a' :: ['b', '.', ' ', 'c', 'd', '.'])).flatten.drop
             c.start_char).take c.length = c.text) ∧
    List.Chain' (fun a b => a.end_char = b.start_char)
      (TextChunker.chunkBySentences ('a' :: ['b', '.', ' ', 'c', 'd', '.']) 4) :=
  c6_amended_ids_offsets ('a' :: ['b', '.', ' ', 'c', 'd', '.']) 4

/-! ## Indexer metadata key-set lemmas -/

theorem lookupS_mem (k v : String) :
    ∀ md : List (String × String), lookupS k md = some v → (k, v) ∈ md := by
  intro md
  induction md with
  | nil => intro h; simp [lookupS] at h
  | cons p rest ih =>
    intro h
    obtain ⟨k₁, v₁⟩ := p
    by_cases hk : k₁ = k
    · subst hk
      have hv : v₁ = v := by simpa [lookupS] using h
      subst hv
      exact List.mem_cons_self _ _
    · exact List.mem_cons_of_mem _ (ih (by simpa [lookupS, hk] using h))

theorem videoResPairs_keys (vo : Option VideoStreamMeta)
    (l : List (String × String)) (h : ExtractMetadata.videoResPairs vo = some l) :
    ∀ p ∈ l, p.1 = "resolution" := by
  intro p hp
  cases vo with
  | none =>
    simp only [ExtractMetadata.videoResPairs] at h
    injection h with h₁
    subst h₁
    cases hp
  | some vs =>
    simp only [ExtractMetadata.videoResPairs] at h
    by_cases ht : truthy vs.width = true
    · rw [if_pos ht] at h
      cases hh : vs.height with
      | none => rw [hh] at h; simp at h
      | some hv =>
        rw [hh] at h
        injection h with h₁
        subst h₁
        rw [List.mem_singleton] at hp
        subst hp
        rfl
    · rw [if_neg ht] at h
      injection h with h₁
      subst h₁
      cases hp

theorem imageResPairs_keys (im : ImageMeta) (l : List (String × String))
    (h : ExtractMetadata.imageResPairs im = some l) :
    ∀ p ∈ l, p.1 = "resolution" := by
  intro p hp
  simp only [ExtractMetadata.imageResPairs] at h
  by_cases ht : truthy im.width = true
  · rw [if_pos ht] at h
    cases hh : im.height with
    | none => rw [hh] at h; simp at h
    | some hv =>
      rw [hh] at h
      injection h with h₁
      subst h₁
      rw [List.mem_singleton] at hp
      subst hp
      rfl
  · rw [if_neg ht] at h
    injection h with h₁
    subst h₁
    cases hp

theorem videoPairs_keys (v : VideoMeta) (l : List (String × String))
    (h : ExtractMetadata.videoPairs v = some l) :
    ∀ p ∈ l, p.1 ∈ ["resolution", "duration", "title", "artist"] := by
  intro p hp
  unfold ExtractMetadata.videoPairs at h
  cases hres : ExtractMetadata.videoResPairs v.video with
  | none => rw [hres] at h; simp at h
  | some res =>
    rw [hres] at h
    injection h with h₁
    subst h₁
    rcases List.mem_append.mp hp with hp₁ | hp₁
    · rcases List.mem_append.mp hp₁ with hp₂ | hp₂
      · rw [videoResPairs_keys v.video res hres p hp₂]; decide
      · cases hd : v.duration_sec with
        | none => rw [hd] at hp₂; cases hp₂
        | some d =>
          rw [hd, List.mem_singleton] at hp₂
          subst hp₂
          show "duration" ∈ _
          decide
    · cases htg : v.tags with
      | none => rw [htg] at hp₁; cases hp₁
      | some t =>
        rw [htg] at hp₁
        rcases List.mem_append.mp hp₁ with hp₂ | hp₂
        · by_cases hti : truthy t.title = true
          · rw [if_pos hti, List.mem_singleton] at hp₂
            subst hp₂
            show "title" ∈ _
            decide
          · rw [if_neg hti] at hp₂; cases hp₂
        · by_cases hta : truthy t.artist = true
          · rw [if_pos hta, List.mem_singleton] at hp₂
            subst hp₂
            show "artist" ∈ _
            decide
          · rw [if_neg hta] at hp₂; cases hp₂

theorem imagePairs_keys (im : ImageMeta) (l : List (String × String))
    (h : ExtractMetadata.imagePairs im = some l) :
    ∀ p ∈ l, p.1 ∈ ["resolution", "format"] := by
  intro p hp
  unfold ExtractMetadata.imagePairs at h
  cases hres : ExtractMetadata.imageResPairs im with
  | none => rw [hres] at h; simp at h
  | some res =>
    rw [hres] at h
    injection h with h₁
    subst h₁
    rcases List.mem_append.mp hp with hp₁ | hp₁
    · rw [imageResPairs_keys im res hres p hp₁]; decide
    · by_cases hf : truthy im.format = true
      · rw [if_pos hf, List.mem_singleton] at hp₁
        subst hp₁
        show "format" ∈ _
        decide
      · rw [if_neg hf] at hp₁; cases hp₁

theorem audioPairs_keys (a : AudioMeta) :
    ∀ p ∈ ExtractMetadata.audioPairs a, p.1 ∈ ["duration", "title", "artist"] := by
  intro p hp
  unfold ExtractMetadata.audioPairs at hp
  rcases List.mem_append.mp hp with hp₁ | hp₁
  · cases hd : a.duration_sec with
    | none => rw [hd] at hp₁; cases hp₁
    | some d =>
      rw [hd, List.mem_singleton] at hp₁
      subst hp₁
      show "duration" ∈ _
      decide
  · cases htg : a.tags with
    | none => rw [htg] at hp₁; cases hp₁
    | some t =>
      rw [htg] at hp₁
      rcases List.mem_append.mp hp₁ with hp₂ | hp₂
      · by_cases hti : truthy t.title = true
        · rw [if_pos hti, List.mem_singleton] at hp₂
          subst hp₂
          show "title" ∈ _
          decide
        · rw [if_neg hti] at hp₂; cases hp₂
      · by_cases hta : truthy t.artist = true
        · rw [if_pos hta, List.mem_singleton] at hp₂
          subst hp₂
          show "artist" ∈ _
          decide
        · rw [if_neg hta] at hp₂; cases hp₂

theorem archivePairs_keys (ar : ArchiveMetaRef) :
    ∀ p ∈ ExtractMetadata.archivePairs ar, p.1 ∈ ["entries", "format"] := by
  intro p hp
  unfold ExtractMetadata.archivePairs at hp
  rcases List.mem_cons.mp hp with h | h
  · subst h; show "entries" ∈ _; decide
  · rw [List.mem_singleton] at h
    subst h
    show "format" ∈ _
    decide

theorem textPairs_keys (m : MediaMeta) :
    ∀ p ∈ ExtractMetadata.textPairs m, p.1 = "has_text" := by
  intro p hp
  unfold ExtractMetadata.textPairs at hp
  cases hts : m.text_sources with
  | none => rw [hts] at hp; cases hp
  | some ts =>
    simp only [hts] at hp
    by_cases he : ts.isEmpty
    · rw [if_pos he] at hp; cases hp
    · rw [if_neg he, List.mem_singleton] at hp
      subst hp
      rfl

theorem basePairs_keys (m : MediaMeta) :
    ∀ p ∈ ExtractMetadata.basePairs m,
      p.1 ∈ ["kind", "path", "size", "mtime", "source_type"] := by
  intro p hp
  unfold ExtractMetadata.basePairs at hp
  rcases List.mem_cons.mp hp with h | hp
  · subst h; show "kind" ∈ _; decide
  rcases List.mem_cons.mp hp with h | hp
  · subst h; show "path" ∈ _; decide
  rcases List.mem_cons.mp hp with h | hp
  · subst h; show "size" ∈ _; decide
  rcases List.mem_cons.mp hp with h | hp
  · subst h; show "mtime" ∈ _; decide
  rw [List.mem_singleton] at hp
  subst hp
  show "source_type" ∈ _
  decide

theorem kindPairs_keys (m : MediaMeta) (kp : List (String × String))
    (h : ExtractMetadata.kindPairs m = some kp) :
    ∀ p ∈ kp,
      p.1 ∈ ["resolution", "duration", "title", "artist", "format", "entries"] := by
  intro p hp
  unfold ExtractMetadata.kindPairs at h
  split_ifs at h
  · cases hv : m.video_meta with
    | none =>
      rw [hv] at h; injection h with h₁; subst h₁; cases hp
    | some v =>
      rw [hv] at h
      have := videoPairs_keys v kp h p hp
      rcases (by simpa using this) with h₁ | h₁ | h₁ | h₁ <;> simp [h₁]
  · cases hv : m.image_meta with
    | none =>
      rw [hv] at h; injection h with h₁; subst h₁; cases hp
    | some im =>
      rw [hv] at h
      have := imagePairs_keys im kp h p hp
      rcases (by simpa using this) with h₁ | h₁ <;> simp [h₁]
  · cases hv : m.audio_meta with
    | none =>
      rw [hv] at h; injection h with h₁; subst h₁; cases hp
    | some a =>
      rw [hv] at h
      injection h with h₁
      subst h₁
      have := audioPairs_keys a p hp
      rcases (by simpa using this) with h₁ | h₁ | h₁ <;> simp [h₁]
  · cases hv : m.archive_meta with
    | none =>
      rw [hv] at h; injection h with h₁; subst h₁; cases hp
    | some ar =>
      rw [hv] at h
      injection h with h₁
      subst h₁
      have := archivePairs_keys ar p hp
      rcases (by simpa using this) with h₁ | h₁ <;> simp [h₁]
  · injection h with h₁; subst h₁; cases hp

theorem extractMetadata_keys (m : MediaMeta) (md : List (String × String))
    (h : MediaIndexer.extractMetadata m = some md) :
    ∀ p ∈ md,
      p.1 ∈ ["kind", "path", "size", "mtime", "source_type", "resolution",
             "duration", "title", "artist", "format", "entries", "has_text"] := by
  intro p hp
  unfold MediaIndexer.extractMetadata at h
  cases hk : ExtractMetadata.kindPairs m with
  | none => rw [hk] at h; simp at h
  | some kp =>
    rw [hk] at h
    injection h with h₁
    subst h₁
    rcases List.mem_append.mp hp with hp₁ | hp₁
    · rcases List.mem_append.mp hp₁ with hp₂ | hp₂
      · have := basePairs_keys m p hp₂
        rcases (by simpa using this) with h₁ | h₁ | h₁ | h₁ | h₁ <;> simp [h₁]
      · have := kindPairs_keys m kp hk p hp₂
        rcases (by simpa using this) with h₁ | h₁ | h₁ | h₁ | h₁ | h₁ <;> simp [h₁]
    · rw [textPairs_keys m p hp₁]; decide

/-- The pipeline never stores a `filename_match` key: the candidate
formatter's `filename_match` branch can never fire on metadata this pipeline
committed. -/
theorem extractMetadata_no_filename_match (m : MediaMeta)
    (md : List (String × String)) (h : MediaIndexer.extractMetadata m = some md) :
    lookupS "filename_match" md = none := by
  cases hlk : lookupS "filename_match" md with
  | none => rfl
  | some v =>
    exfalso
    have hmem := lookupS_mem "filename_match" v md hlk
    have hkey : "filename_match" ∈
        ["kind", "path", "size", "mtime", "source_type", "resolution",
         "duration", "title", "artist", "format", "entries", "has_text"] :=
      extractMetadata_keys m md h _ hmem
    exact absurd hkey (by decide)

/-- C1.  For search results whose metadata maps were committed by this
pipeline (`_extract_metadata`), every reason string of every returned
candidate, and every matched-field reason of the evidence text, is built from
a key/value pair present in that candidate's own metadata map, with the key
drawn from the fixed whitelist (title, artist, album, resolution, duration,
format, entries, has_text) — no reason is invented from data outside the
map. -/
theorem c1_evidence_subset_of_metadata
    (results : List MediaIndexer.SearchResult)
    (hp : ∀ r ∈ results, ∃ rec : MediaMeta,
            MediaIndexer.extractMetadata rec = some r.metadata) :
    ∀ r ∈ results,
      (∀ reason ∈ (LocalLLMQueryEngine.formatCandidate r).reasons,
         ∃ k v, k ∈ LocalLLMQueryEngine.candidateWhitelist ∧
           lookupS k r.metadata = some v ∧ v.isEmpty = false ∧
           reason = LocalLLMQueryEngine.candReason k v) ∧
      (∀ reason ∈ LocalLLMQueryEngine.evidenceReasons r.metadata,
         ∃ k v, k ∈ LocalLLMQueryEngine.candidateWhitelist ∧
           lookupS k r.metadata = some v ∧
           reason = LocalLLMQueryEngine.evidenceReason k v) := by
  intro r hr
  obtain ⟨rec, hrec⟩ := hp r hr
  constructor
  · intro reason hmem
    have hmem₁ : reason ∈ LocalLLMQueryEngine.candReasons r.metadata := hmem
    unfold LocalLLMQueryEngine.candReasons at hmem₁
    obtain ⟨k, hk, hf⟩ := List.mem_filterMap.mp hmem₁
    by_cases ht : LocalLLMQueryEngine.truthyKey r.metadata k = true
    · rw [if_pos ht] at hf
      injection hf with hf
      unfold LocalLLMQueryEngine.truthyKey at ht
      cases hlk : lookupS k r.metadata with
      | none => rw [hlk] at ht; simp [truthy] at ht
      | some v =>
        rw [hlk] at ht
        have hv : v.isEmpty = false := by simpa [truthy] using ht
        have hkne : k ≠ "filename_match" := by
          intro h₀
          subst h₀
          rw [extractMetadata_no_filename_match rec r.metadata hrec] at hlk
          cases hlk
        have hkw : k ∈ LocalLLMQueryEngine.candidateWhitelist := by
          rcases (by simpa using hk) with h₁ | h₁ | h₁ | h₁ | h₁ | h₁ | h₁
          · exact absurd h₁ hkne
          all_goals (subst h₁; decide)
        refine ⟨k, v, hkw, hlk, hv, ?_⟩
        rw [← hf]
        unfold optStr
        rw [hlk]
        rfl
    · rw [if_neg ht] at hf
      cases hf
  · intro reason hmem
    unfold LocalLLMQueryEngine.evidenceReasons at hmem
    rcases List.mem_append.mp hmem with hmem₁ | hmem₁
    · obtain ⟨k, hk, hf⟩ := List.mem_filterMap.mp hmem₁
      cases hlk : lookupS k r.metadata with
      | none => rw [hlk] at hf; cases hf
      | some v =>
        rw [hlk] at hf
        injection hf with hf
        have hkw : k ∈ LocalLLMQueryEngine.candidateWhitelist := by
          rcases (by simpa using hk) with h₁ | h₁ | h₁ | h₁ | h₁ | h₁ | h₁ <;>
            (subst h₁; decide)
        exact ⟨k, v, hkw, hlk, hf.symm⟩
    · cases hlk : lookupS "has_text" r.metadata with
      | none => rw [hlk] at hmem₁; cases hmem₁
      | some v =>
        rw [hlk, List.mem_singleton] at hmem₁
        subst hmem₁
        exact ⟨"has_text", v, by decide, hlk, rfl⟩

/-- C1 witness: the evidence-subset property holds at one concrete search
result whose metadata is exactly what the pipeline commits for a concrete
video record. -/
theorem c1_witness :
    (∀ reason ∈ (LocalLLMQueryEngine.formatCandidate sampleSearchResult).reasons,
       ∃ k v, k ∈ LocalLLMQueryEngine.candidateWhitelist ∧
         lookupS k sampleSearchResult.metadata = some v ∧ v.isEmpty = false ∧
         reason = LocalLLMQueryEngine.candReason k v) ∧
    (∀ reason ∈ LocalLLMQueryEngine.evidenceReasons sampleSearchResult.metadata,
       ∃ k v, k ∈ LocalLLMQueryEngine.candidateWhitelist ∧
         lookupS k sampleSearchResult.metadata = some v ∧
         reason = LocalLLMQueryEngine.evidenceReason k v) :=
  c1_evidence_subset_of_metadata [sampleSearchResult]
    (by
      intro r hr
      rw [List.mem_singleton] at hr
      subst hr
      exact ⟨sampleVideoRecord, by decide⟩)
    sampleSearchResult (List.mem_singleton_self _)

/-- C2 counterexample.  A query against an uninitialized store (`db = None`)
returns an empty candidates list but *no* count field at all: the claimed
`count = 0` is absent from the no-results return dict (`search_results_count`
is only set on the success path). -/
theorem c2_counterexample :
    (LocalLLMQueryEngine.query "http://localhost:11434" true none "q"
        (.ok "a")).candidates = some [] ∧
    (LocalLLMQueryEngine.query "http://localhost:11434" true none "q"
        (.ok "a")).search_results_count ≠ some 0 := by
  constructor
  · rfl
  · intro h
    cases h

/-- C2 (amended).  A query against an empty or unreachable store (search
yields the empty list — in particular `db = None` and a raising `db.query`
both produce `[]`, never an exception) returns the structured dict
`{question, answer = "…見つかりません。", candidates = []}` with the
`search_results_count` field omitted rather than `0`; when the engine's
indexer is unset, an error dict with an apology answer and no candidates
field is returned.  No path raises past the query boundary (the embedding is
total). -/
theorem c2_amended_empty_store (url question : String)
    (llm : LocalLLMQueryEngine.LlmOutcome)
    (db : Option (Except String MediaIndexer.RawResults))
    (h : MediaIndexer.search db = []) :
    LocalLLMQueryEngine.query url true db question llm =
      { error := none, question := some question,
        answer := LocalLLMQueryEngine.notFoundAnswer,
        candidates := some [], search_results_count := none } ∧
    MediaIndexer.search none = [] ∧
    (∀ msg, MediaIndexer.search (some (Except.error msg)) = []) ∧
    (LocalLLMQueryEngine.query url false db question llm).error
        = some "Indexer not initialized" ∧
    (LocalLLMQueryEngine.query url false db question llm).candidates = none := by
  refine ⟨?_, rfl, fun msg => rfl, rfl, rfl⟩
  unfold LocalLLMQueryEngine.query
  rw [h]
  rfl

/-- C2 witness: the amended statement at the concrete uninitialized store. -/
theorem c2_witness :
    LocalLLMQueryEngine.query "http://localhost:11434" true none "q"
        (.ok "a") =
      { error := none, question := some "q",
        answer := LocalLLMQueryEngine.notFoundAnswer,
        candidates := some [], search_results_count := none } ∧
    MediaIndexer.search none = [] ∧
    (∀ msg, MediaIndexer.search (some (Except.error msg)) = []) ∧
    (LocalLLMQueryEngine.query "http://localhost:11434" false none "q"
        (.ok "a")).error = some "Indexer not initialized" ∧
    (LocalLLMQueryEngine.query "http://localhost:11434" false none "q"
        (.ok "a")).candidates = none :=
  c2_amended_empty_store "http://localhost:11434" "q" (.ok "a") none rfl

/-- C7.  `_create_document` is deterministic — identical records yield
byte-identical strings (the parts list is computed in one fixed order and
joined with the fixed separator) — and a record whose kind-specific metadata
and text sources are absent renders only the four generic parts, with no
kind-specific or placeholder segments. -/
theorem c7_document_deterministic (m₁ m₂ : MediaMeta) (h : m₁ = m₂) :
    MediaIndexer.createDocument m₁ = MediaIndexer.createDocument m₂ ∧
    (m₁.video_meta = none → m₁.image_meta = none → m₁.audio_meta = none →
     m₁.archive_meta = none → m₁.text_sources = none →
     MediaIndexer.createDocument m₁ =
       String.intercalate " | " (MediaIndexer.baseParts m₁)) := by
  subst h
  refine ⟨rfl, ?_⟩
  intro hv hi ha har ht
  unfold MediaIndexer.createDocument MediaIndexer.kindParts MediaIndexer.textParts
  rw [hv, hi, ha, har, ht]
  split_ifs <;> simp

/-- C7 witness: determinism and generic-only rendering at the concrete
sample record. -/
theorem c7_witness :
    MediaIndexer.createDocument sampleVideoRecord =
      MediaIndexer.createDocument sampleVideoRecord ∧
    (sampleVideoRecord.video_meta = none → sampleVideoRecord.image_meta = none →
     sampleVideoRecord.audio_meta = none →
     sampleVideoRecord.archive_meta = none →
     sampleVideoRecord.text_sources = none →
     MediaIndexer.createDocument sampleVideoRecord =
       String.intercalate " | " (MediaIndexer.baseParts sampleVideoRecord)) :=
  c7_document_deterministic sampleVideoRecord sampleVideoRecord rfl

/-! ## Archive extractor lemmas -/

theorem mem_ite_append {α : Type} (a : α) (l₁ l₂ : List α) (c : Prop)
    [Decidable c] (h : a ∈ l₁) : a ∈ (if c then l₁ ++ l₂ else l₁) := by
  split_ifs
  · exact List.mem_append_left _ h
  · exact h

theorem truncationWarning_contains_cap (total cap : Nat) :
    (toString cap).data <:+:
      (ArchiveListExtractor.truncationWarning total cap).data := by
  unfold ArchiveListExtractor.truncationWarning
  simp only [String.data_append]
  exact List.infix_append _ _ _

/-- C8.  For zip and tar archives whose raw entry count exceeds the
configured cap, the extracted listing reports `entry_count` equal to the cap,
and the warnings list carries the truncation warning — the marker that the
listing was truncated — whose text contains the cap value (its decimal
rendering is a substring of the warning). -/
theorem c8_entry_cap_truncation
    (infolist : List ArchiveListExtractor.ZipInfo)
    (members : List ArchiveListExtractor.TarMember)
    (maxEntries maxSize : Nat)
    (hz : infolist.length > maxEntries) (ht : members.length > maxEntries) :
    ((ArchiveListExtractor.extractZip (.ok infolist) maxEntries maxSize
        (ArchiveListExtractor.initMeta ".zip")).entry_count = maxEntries ∧
     ArchiveListExtractor.truncationWarning infolist.length maxEntries ∈
       (ArchiveListExtractor.extractZip (.ok infolist) maxEntries maxSize
         (ArchiveListExtractor.initMeta ".zip")).warnings) ∧
    ((ArchiveListExtractor.extractTar (.ok members) maxEntries maxSize
        (ArchiveListExtractor.initMeta ".tar")).entry_count = maxEntries ∧
     ArchiveListExtractor.truncationWarning members.length maxEntries ∈
       (ArchiveListExtractor.extractTar (.ok members) maxEntries maxSize
         (ArchiveListExtractor.initMeta ".tar")).warnings) ∧
    (toString maxEntries).data <:+:
      (ArchiveListExtractor.truncationWarning infolist.length maxEntries).data := by
  refine ⟨⟨?_, ?_⟩, ⟨?_, ?_⟩, truncationWarning_contains_cap _ _⟩
  · show min infolist.length maxEntries = maxEntries
    omega
  · show ArchiveListExtractor.truncationWarning infolist.length maxEntries ∈
      (if (ArchiveListExtractor.initMeta ".zip").total_size_bytes +
            ((infolist.take maxEntries).map
              ArchiveListExtractor.ZipInfo.file_size).sum > maxSize then
         (if infolist.length > maxEntries then
            (ArchiveListExtractor.initMeta ".zip").warnings ++
              ((infolist.take maxEntries).filter
                (fun i => ArchiveListExtractor.hasPathTraversal i.filename)).map
                (fun i => ArchiveListExtractor.traversalWarning i.filename) ++
              [ArchiveListExtractor.truncationWarning infolist.length maxEntries]
          else
            (ArchiveListExtractor.initMeta ".zip").warnings ++
              ((infolist.take maxEntries).filter
                (fun i => ArchiveListExtractor.hasPathTraversal i.filename)).map
                (fun i => ArchiveListExtractor.traversalWarning i.filename)) ++
           [ArchiveListExtractor.largeArchiveWarning
             ((ArchiveListExtractor.initMeta ".zip").total_size_bytes +
               ((infolist.take maxEntries).map
                 ArchiveListExtractor.ZipInfo.file_size).sum)]
       else
         (if infolist.length > maxEntries then
            (ArchiveListExtractor.initMeta ".zip").warnings ++
              ((infolist.take maxEntries).filter
                (fun i => ArchiveListExtractor.hasPathTraversal i.filename)).map
                (fun i => ArchiveListExtractor.traversalWarning i.filename) ++
              [ArchiveListExtractor.truncationWarning infolist.length maxEntries]
          else
            (ArchiveListExtractor.initMeta ".zip").warnings ++
              ((infolist.take maxEntries).filter
                (fun i => ArchiveListExtractor.hasPathTraversal i.filename)).map
                (fun i => ArchiveListExtractor.traversalWarning i.filename)))
    rw [if_pos hz]
    exact mem_ite_append _ _ _ _
      (List.mem_append_right _ (List.mem_singleton_self _))
  · show min members.length maxEntries = maxEntries
    omega
  · show ArchiveListExtractor.truncationWarning members.length maxEntries ∈
      (if (ArchiveListExtractor.initMeta ".tar").total_size_bytes +
            ((members.take maxEntries).map
              ArchiveListExtractor.TarMember.size).sum > maxSize then
         (if members.length > maxEntries then
            (ArchiveListExtractor.initMeta ".tar").warnings ++
              ((members.take maxEntries).filter
                (fun m => ArchiveListExtractor.hasPathTraversal m.name)).map
                (fun m => ArchiveListExtractor.traversalWarning m.name) ++
              [ArchiveListExtractor.truncationWarning members.length maxEntries]
          else
            (ArchiveListExtractor.initMeta ".tar").warnings ++
              ((members.take maxEntries).filter
                (fun m => ArchiveListExtractor.hasPathTraversal m.name)).map
                (fun m => ArchiveListExtractor.traversalWarning m.name)) ++
           [ArchiveListExtractor.largeArchiveWarning
             ((ArchiveListExtractor.initMeta ".tar").total_size_bytes +
               ((members.take maxEntries).map
                 ArchiveListExtractor.TarMember.size).sum)]
       else
         (if members.length > maxEntries then
            (ArchiveListExtractor.initMeta ".tar").warnings ++
              ((members.take maxEntries).filter
                (fun m => ArchiveListExtractor.hasPathTraversal m.name)).map
                (fun m => ArchiveListExtractor.traversalWarning m.name) ++
              [ArchiveListExtractor.truncationWarning members.length maxEntries]
          else
            (ArchiveListExtractor.initMeta ".tar").warnings ++
              ((members.take maxEntries).filter
                (fun m => ArchiveListExtractor.hasPathTraversal m.name)).map
                (fun m => ArchiveListExtractor.traversalWarning m.name)))
    rw [if_pos ht]
    exact mem_ite_append _ _ _ _
      (List.mem_append_right _ (List.mem_singleton_self _))

/-- C8 witness: a zip and a tar archive of 60,000 entries against the
configured cap of 50,000 yield `entry_count = 50000` and a truncation
warning whose text contains `"50000"`. -/
theorem c8_witness :
    ((ArchiveListExtractor.extractZip
        (.ok (List.replicate 60000
          (⟨"f.txt", 0, false, 0⟩ : ArchiveListExtractor.ZipInfo)))
        50000 (50 * 1024 * 1024 * 1024)
        (ArchiveListExtractor.initMeta ".zip")).entry_count = 50000 ∧
     ArchiveListExtractor.truncationWarning
         (List.replicate 60000
           (⟨"f.txt", 0, false, 0⟩ : ArchiveListExtractor.ZipInfo)).length
         50000 ∈
       (ArchiveListExtractor.extractZip
         (.ok (List.replicate 60000
           (⟨"f.txt", 0, false, 0⟩ : ArchiveListExtractor.ZipInfo)))
         50000 (50 * 1024 * 1024 * 1024)
         (ArchiveListExtractor.initMeta ".zip")).warnings) ∧
    ((ArchiveListExtractor.extractTar
        (.ok (List.replicate 60000
          (⟨"f.txt", 0, false⟩ : ArchiveListExtractor.TarMember)))
        50000 (50 * 1024 * 1024 * 1024)
        (ArchiveListExtractor.initMeta ".tar")).entry_count = 50000 ∧
     ArchiveListExtractor.truncationWarning
         (List.replicate 60000
           (⟨"f.txt", 0, false⟩ : ArchiveListExtractor.TarMember)).length
         50000 ∈
       (ArchiveListExtractor.extractTar
         (.ok (List.replicate 60000
           (⟨"f.txt", 0, false⟩ : ArchiveListExtractor.TarMember)))
         50000 (50 * 1024 * 1024 * 1024)
         (ArchiveListExtractor.initMeta ".tar")).warnings) ∧
    (toString 50000).data <:+:
      (ArchiveListExtractor.truncationWarning
        (List.replicate 60000
          (⟨"f.txt", 0, false, 0⟩ : ArchiveListExtractor.ZipInfo)).length
        50000).data :=
  c8_entry_cap_truncation
    (List.replicate 60000 ⟨"f.txt", 0, false, 0⟩)
    (List.replicate 60000 ⟨"f.txt", 0, false⟩)
    50000 (50 * 1024 * 1024 * 1024)
    (by rw [List.length_replicate]; omega)
    (by rw [List.length_replicate]; omega)

/-- C9 counterexample.  The claim quantifies over every supported archive
format, but the 7z handler is a stub: even when the external `7z` listing of
an archive holding an entry named `../../etc/passwd` succeeds, no entries
are parsed and no warning of any kind is recorded — there is no per-entry or
archive-level traversal warning for that entry name. -/
theorem c9_counterexample :
    (ArchiveListExtractor.extract7z
        (.ran 0 "../../etc/passwd  1024  file")
        (ArchiveListExtractor.initMeta ".7z")).warnings = [] ∧
    (ArchiveListExtractor.extract7z
        (.ran 0 "../../etc/passwd  1024  file")
        (ArchiveListExtractor.initMeta ".7z")).entries = [] ∧
    ArchiveListExtractor.hasPathTraversal "../../etc/passwd" = true := by
  refine ⟨rfl, rfl, by decide⟩

/-- C9 (amended).  For zip and tar archives only: every processed entry whose
name contains a parent-directory or absolute-path marker is recorded with the
per-entry warning `"Possible path traversal"`, the archive-level warnings
list carries `"Path traversal in: <name>"`, and extraction still proceeds
(the entry is listed, `error` stays `none`).  The 7z/rar handlers parse no
entry list, so no traversal detection happens there. -/
theorem c9_amended_traversal_zip_tar
    (infolist : List ArchiveListExtractor.ZipInfo)
    (members : List ArchiveListExtractor.TarMember)
    (maxEntries maxSize : Nat)
    (zi : ArchiveListExtractor.ZipInfo) (tm : ArchiveListExtractor.TarMember)
    (hzi : zi ∈ infolist.take maxEntries)
    (hzt : ArchiveListExtractor.hasPathTraversal zi.filename = true)
    (htm : tm ∈ members.take maxEntries)
    (htt : ArchiveListExtractor.hasPathTraversal tm.name = true) :
    ((∃ e ∈ (ArchiveListExtractor.extractZip (.ok infolist) maxEntries maxSize
          (ArchiveListExtractor.initMeta ".zip")).entries,
        e.name = zi.filename ∧
        e.warning = some ArchiveListExtractor.entryTraversalWarning) ∧
     ArchiveListExtractor.traversalWarning zi.filename ∈
       (ArchiveListExtractor.extractZip (.ok infolist) maxEntries maxSize
         (ArchiveListExtractor.initMeta ".zip")).warnings ∧
     (ArchiveListExtractor.extractZip (.ok infolist) maxEntries maxSize
       (ArchiveListExtractor.initMeta ".zip")).error = none) ∧
    ((∃ e ∈ (ArchiveListExtractor.extractTar (.ok members) maxEntries maxSize
          (ArchiveListExtractor.initMeta ".tar")).entries,
        e.name = tm.name ∧
        e.warning = some ArchiveListExtractor.entryTraversalWarning) ∧
     ArchiveListExtractor.traversalWarning tm.name ∈
       (ArchiveListExtractor.extractTar (.ok members) maxEntries maxSize
         (ArchiveListExtractor.initMeta ".tar")).warnings ∧
     (ArchiveListExtractor.extractTar (.ok members) maxEntries maxSize
       (ArchiveListExtractor.initMeta ".tar")).error = none) ∧
    ArchiveListExtractor.hasPathTraversal "../../etc/passwd" = true := by
  refine ⟨⟨?_, ?_, rfl⟩, ⟨?_, ?_, rfl⟩, by decide⟩
  · refine ⟨ArchiveListExtractor.zipEntry zi, ?_, rfl, ?_⟩
    · simp only [ArchiveListExtractor.extractZip]
      exact List.mem_append_right _ (List.mem_map_of_mem _ hzi)
    · simp [ArchiveListExtractor.zipEntry, hzt]
  · simp only [ArchiveListExtractor.extractZip]
    refine mem_ite_append _ _ _ _ (mem_ite_append _ _ _ _ ?_)
    exact List.mem_append_right _
      (List.mem_map_of_mem _ (List.mem_filter.mpr ⟨hzi, hzt⟩))
  · refine ⟨ArchiveListExtractor.tarEntry tm, ?_, rfl, ?_⟩
    · simp only [ArchiveListExtractor.extractTar]
      exact List.mem_append_right _ (List.mem_map_of_mem _ htm)
    · simp [ArchiveListExtractor.tarEntry, htt]
  · simp only [ArchiveListExtractor.extractTar]
    refine mem_ite_append _ _ _ _ (mem_ite_append _ _ _ _ ?_)
    exact List.mem_append_right _
      (List.mem_map_of_mem _ (List.mem_filter.mpr ⟨htm, htt⟩))

/-- C9 witness: the amended statement at one-entry zip and tar archives whose
entry is named `../../etc/passwd`. -/
theorem c9_witness :
    ((∃ e ∈ (ArchiveListExtractor.extractZip
          (.ok [(⟨"../../etc/passwd", 1, false, 1⟩ :
                  ArchiveListExtractor.ZipInfo)]) 100 1000
          (ArchiveListExtractor.initMeta ".zip")).entries,
        e.name = (⟨"../../etc/passwd", 1, false, 1⟩ :
                   ArchiveListExtractor.ZipInfo).filename ∧
        e.warning = some ArchiveListExtractor.entryTraversalWarning) ∧
     ArchiveListExtractor.traversalWarning
         (⟨"../../etc/passwd", 1, false, 1⟩ :
           ArchiveListExtractor.ZipInfo).filename ∈
       (ArchiveListExtractor.extractZip
         (.ok [(⟨"../../etc/passwd", 1, false, 1⟩ :
                 ArchiveListExtractor.ZipInfo)]) 100 1000
         (ArchiveListExtractor.initMeta ".zip")).warnings ∧
     (ArchiveListExtractor.extractZip
       (.ok [(⟨"../../etc/passwd", 1, false, 1⟩ :
               ArchiveListExtractor.ZipInfo)]) 100 1000
       (ArchiveListExtractor.initMeta ".zip")).error = none) ∧
    ((∃ e ∈ (ArchiveListExtractor.extractTar
          (.ok [(⟨"../../etc/passwd", 1, false⟩ :
                  ArchiveListExtractor.TarMember)]) 100 1000
          (ArchiveListExtractor.initMeta ".tar")).entries,
        e.name = (⟨"../../etc/passwd", 1, false⟩ :
                   ArchiveListExtractor.TarMember).name ∧
        e.warning = some ArchiveListExtractor.entryTraversalWarning) ∧
     ArchiveListExtractor.traversalWarning
         (⟨"../../etc/passwd", 1, false⟩ :
           ArchiveListExtractor.TarMember).name ∈
       (ArchiveListExtractor.extractTar
         (.ok [(⟨"../../etc/passwd", 1, false⟩ :
                 ArchiveListExtractor.TarMember)]) 100 1000
         (ArchiveListExtractor.initMeta ".tar")).warnings ∧
     (ArchiveListExtractor.extractTar
       (.ok [(⟨"../../etc/passwd", 1, false⟩ :
               ArchiveListExtractor.TarMember)]) 100 1000
       (ArchiveListExtractor.initMeta ".tar")).error = none) ∧
    ArchiveListExtractor.hasPathTraversal "../../etc/passwd" = true :=
  c9_amended_traversal_zip_tar
    [⟨"../../etc/passwd", 1, false, 1⟩] [⟨"../../etc/passwd", 1, false⟩]
    100 1000 ⟨"../../etc/passwd", 1, false, 1⟩ ⟨"../../etc/passwd", 1, false⟩
    (by decide) (by decide) (by decide) (by decide)

end LocalSearch
